import Mathlib

/-!
Verification of the SWD flasher core (nRF52 Mesh Radio Flasher).

This file gives a shallow embedding of the SWD protocol core
(`swd_core.c`), the memory access layer (`swd_mem.c`), the flash
programming engine (`swd_flash.c`), the Intel-HEX stream parser
(`hex_parser.c`) and the upload buffering logic (`web_upload.c`),
together with theorems about the embedded definitions.

Machine integers are modelled as `Nat` with explicit masking where the
C code relies on fixed-width behaviour.  Hardware interactions (SWD wire
transfers, target register reads/writes) are modelled by explicit oracle
functions supplying the outcome of each interaction, and by traces of
the operations the code issues.
-/

/-! ## ESP-IDF error codes (esp_err.h) -/

def ESP_OK : Int := 0

def ESP_FAIL : Int := -1

def ESP_ERR_NO_MEM : Int := 0x101

def ESP_ERR_INVALID_ARG : Int := 0x102

def ESP_ERR_INVALID_STATE : Int := 0x103

def ESP_ERR_INVALID_SIZE : Int := 0x104

def ESP_ERR_NOT_FOUND : Int := 0x105

def ESP_ERR_NOT_SUPPORTED : Int := 0x106

def ESP_ERR_TIMEOUT : Int := 0x107

def ESP_ERR_INVALID_CRC : Int := 0x109

/-! ## SWD acknowledgement codes (swd_core.h)

`SWD_ACK_OK = 0x1`, `SWD_ACK_WAIT = 0x2`, `SWD_ACK_FAULT = 0x4`,
`SWD_ACK_NACK = 0x7`.  An acknowledgement is the raw 3-bit value read
from the wire, so we model it as a `Nat`. -/

def SWD_ACK_OK : Nat := 0x1

def SWD_ACK_WAIT : Nat := 0x2

def SWD_ACK_FAULT : Nat := 0x4

def SWD_ACK_NACK : Nat := 0x7

/-! ## Bit-link layer: parity (swd_core.c, parity32)

```c
static inline bool parity32(uint32_t x) {
    x ^= x >> 16;
    x ^= x >> 8;
    x ^= x >> 4;
    x &= 0xF;
    return (0x6996 >> x) & 1;
}
```
-/

def parity32 (x : Nat) : Bool :=
  let a := x ^^^ (x >>> 16)
  let b := a ^^^ (a >>> 8)
  let c := b ^^^ (b >>> 4)
  let d := c &&& 0xF
  (((0x6996 : Nat) >>> d) &&& 1) == 1

/-- Specification-side XOR-fold of the low `n` bits of `x`
(equivalently, popcount of the low `n` bits, mod 2). -/
def bfold : Nat → Nat → Bool
  | 0, _ => false
  | n + 1, x => Bool.xor (bfold n x) (x.testBit n)

/-- Specification-side popcount of the low `n` bits of `x`. -/
def bitSum : Nat → Nat → Nat
  | 0, _ => 0
  | n + 1, x => bitSum n x + (if x.testBit n then 1 else 0)

theorem bfold_xor (n x y : Nat) :
    bfold n (x ^^^ y) = Bool.xor (bfold n x) (bfold n y) := by
  induction n with
  | zero => simp [bfold]
  | succ n ih =>
      simp only [bfold, ih, Nat.testBit_xor]
      cases bfold n x <;> cases bfold n y <;>
        cases x.testBit n <;> cases y.testBit n <;> rfl

theorem bfold_add (a b x : Nat) :
    bfold (a + b) x = Bool.xor (bfold a x) (bfold b (x >>> a)) := by
  induction b with
  | zero => simp [bfold]
  | succ b ih =>
      have h : a + (b + 1) = (a + b) + 1 := by omega
      rw [h]
      simp only [bfold, ih, Nat.testBit_shiftRight]
      cases bfold a x <;> cases bfold b (x >>> a) <;>
        cases x.testBit (a + b) <;> rfl

theorem bfold_halve (k x : Nat) :
    bfold k (x ^^^ (x >>> k)) = bfold (k + k) x := by
  rw [bfold_add k k x, bfold_xor]

theorem bfold_eq_bitSum (n x : Nat) :
    bfold n x = decide (bitSum n x % 2 = 1) := by
  induction n with
  | zero => simp [bfold, bitSum]
  | succ n ih =>
      simp only [bfold, bitSum, ih]
      rcases Bool.eq_false_or_eq_true (x.testBit n) with h | h <;>
        simp only [h] <;>
        by_cases hs : bitSum n x % 2 = 1 <;> simp [hs] <;> omega

theorem bfold_and_fifteen (x : Nat) : bfold 4 (x &&& 0xF) = bfold 4 x := by
  have h : ∀ i, i < 4 → (x &&& 0xF).testBit i = x.testBit i := by
    intro i hi
    have h15 : Nat.testBit 15 i = true := by interval_cases i <;> decide
    rw [Nat.testBit_and, h15, Bool.and_true]
  show bfold 4 (x &&& 0xF) = bfold 4 x
  simp only [bfold]
  rw [h 0 (by omega), h 1 (by omega), h 2 (by omega), h 3 (by omega)]

/-- The nibble-table lookup `(0x6996 >> r) & 1` agrees with the XOR-fold
on all 16 nibble values. -/
theorem table_lookup_correct (r : Nat) (h : r < 16) :
    ((((0x6996 : Nat) >>> r) &&& 1) == 1) = bfold 4 r := by
  revert h
  revert r
  decide

theorem parity32_eq_bfold (x : Nat) : parity32 x = bfold 32 x := by
  unfold parity32
  have h1 : bfold 32 x = bfold 16 (x ^^^ (x >>> 16)) := (bfold_halve 16 x).symm
  have h2 : bfold 16 (x ^^^ (x >>> 16)) =
      bfold 8 ((x ^^^ (x >>> 16)) ^^^ ((x ^^^ (x >>> 16)) >>> 8)) :=
    (bfold_halve 8 _).symm
  have h3 : ∀ y : Nat, bfold 8 y = bfold 4 (y ^^^ (y >>> 4)) :=
    fun y => (bfold_halve 4 y).symm
  rw [h1, h2, h3]
  rw [← bfold_and_fifteen]
  exact table_lookup_correct _ (by
    have := Nat.and_le_right (n := (x ^^^ x >>> 16) ^^^ (x ^^^ x >>> 16) >>> 8
      ^^^ ((x ^^^ x >>> 16) ^^^ (x ^^^ x >>> 16) >>> 8) >>> 4) (m := 0xF)
    omega)

/-! ## Transaction layer: raw transfer (swd_core.c, swd_transfer_raw)

The wire-level response to one transaction is modelled by the values the
target puts on the wire: the 3-bit acknowledgement, and (for a read) the
32 data bits plus the trailing parity bit. -/

structure WireRead where
  ack : Nat
  value : Nat
  pb : Nat
deriving Repr, DecidableEq

/-- `swd_transfer_raw`, data phase.  Given the wire response `w`, the
direction flag `readOp`, and the caller's data word (for a write), it
returns the acknowledgement reported to the caller and, for a read,
`some v` when the word `v` was stored into the caller's `*data`
(`none` when `*data` was left untouched).  Mirrors the C control flow:
on `OK`+read, the 32 data bits and the parity bit are read and the
parity is verified, a mismatch being reported as `SWD_ACK_FAULT`,
with the output left unwritten; on `OK`+write the data and its
`parity32` bit are emitted; on non-`OK` the transaction is drained. -/
def swd_transfer_raw (w : WireRead) (readOp : Bool) : Nat × Option Nat :=
  if w.ack = SWD_ACK_OK then
    if readOp then
      if w.pb ≠ (if parity32 w.value then 1 else 0) then
        (SWD_ACK_FAULT, none)
      else
        (SWD_ACK_OK, some w.value)
    else
      (SWD_ACK_OK, none)
  else
    (w.ack, none)

/-- C2: the companion parity bit computed by `parity32` is the XOR-fold
(popcount mod 2) of the 32 bits of the value, and a read transaction
whose trailing parity bit does not match `parity32` of the received data
word is reported as `SWD_ACK_FAULT` (distinct from `WAIT` and from the
protocol `NACK`), with no data stored into the caller's output. -/
theorem swd_parity_invariant_and_fault :
    (∀ x : Nat, x < 2 ^ 32 →
      parity32 x = decide (bitSum 32 x % 2 = 1)) ∧
    (∀ w : WireRead, w.ack = SWD_ACK_OK →
      w.pb ≠ (if parity32 w.value then 1 else 0) →
      swd_transfer_raw w true = (SWD_ACK_FAULT, none) ∧
        SWD_ACK_FAULT ≠ SWD_ACK_WAIT ∧ SWD_ACK_FAULT ≠ SWD_ACK_NACK) := by
  constructor
  · intro x _
    rw [parity32_eq_bfold, bfold_eq_bitSum]
  · intro w hack hpb
    refine ⟨?_, by decide, by decide⟩
    simp [swd_transfer_raw, hack, hpb]

/-- Witness for C2 at concrete inputs: `0xDEADBEEF` has even popcount,
and a read of `0xDEADBEEF` whose wire parity bit is `1` is reported as a
fault with no data stored. -/
theorem swd_parity_invariant_and_fault_witness :
    ((0xDEADBEEF : Nat) < 2 ^ 32 ∧
      parity32 0xDEADBEEF = decide (bitSum 32 0xDEADBEEF % 2 = 1)) ∧
    ((1 : Nat) ≠ (if parity32 0xDEADBEEF then 1 else 0) ∧
      swd_transfer_raw ⟨SWD_ACK_OK, 0xDEADBEEF, 1⟩ true = (SWD_ACK_FAULT, none)) :=
  ⟨⟨by decide, swd_parity_invariant_and_fault.1 0xDEADBEEF (by decide)⟩,
   ⟨by decide,
    (swd_parity_invariant_and_fault.2 ⟨SWD_ACK_OK, 0xDEADBEEF, 1⟩ rfl
      (by decide)).1⟩⟩

/-! ## Bit-link layer: LSB-first bit emission (swd_core.c, write_bits)

```c
static void write_bits(uint32_t value, uint8_t count) {
    ...
    while (count--) {
        if (value & 1) SWDIO_H(); else SWDIO_L();
        clock_pulse();
        value >>= 1;
    }
}
```
The sequence of levels driven on SWDIO is modelled as a `List Bool`,
least significant bit first. -/

def write_bits (value : Nat) : Nat → List Bool
  | 0 => []
  | count + 1 => (value &&& 1 == 1) :: write_bits (value >>> 1) count

/-! ## Transaction layer: request header (swd_core.c, send_request)

```c
static void send_request(uint8_t addr, bool ap, bool read) {
    uint8_t request = 0x81;  // Start bit and park bit
    if (ap) request |= (1 << 1);
    if (read) request |= (1 << 2);
    request |= (addr & 0x0C) << 1;
    bool parity = ap ^ read ^ ((addr >> 2) & 1) ^ ((addr >> 3) & 1);
    if (parity) request |= (1 << 5);
    write_bits(request, 8);
}
```
-/

def send_request (addr : Nat) (ap rd : Bool) : List Bool :=
  let request : Nat := 0x81
  let request := if ap then request ||| (1 <<< 1) else request
  let request := if rd then request ||| (1 <<< 2) else request
  let request := request ||| ((addr &&& 0x0C) <<< 1)
  let parity : Bool :=
    Bool.xor (Bool.xor ap rd)
      (Bool.xor ((addr >>> 2) &&& 1 == 1) ((addr >>> 3) &&& 1 == 1))
  let request := if parity then request ||| (1 <<< 5) else request
  write_bits request 8

set_option maxRecDepth 8192 in
/-- C9: for every register address and AP/DP / read-write direction, the
8-bit request header emitted LSB-first is: start bit 1, the AP flag, the
read flag, address bits 2 and 3, the parity (XOR) of those four fields,
stop bit 0, park bit 1. -/
theorem send_request_header_layout (addr : Nat) (h : addr < 256) (ap rd : Bool) :
    send_request addr ap rd =
      [true, ap, rd, addr.testBit 2, addr.testBit 3,
       Bool.xor (Bool.xor ap rd) (Bool.xor (addr.testBit 2) (addr.testBit 3)),
       false, true] := by
  revert ap rd
  revert h
  revert addr
  decide

/-- Witness for C9 at `addr = 0x08`, an AP read: the emitted header is
start, AP, read, address bits `0` and `1`, parity `1`, stop `0`, park. -/
theorem send_request_header_layout_witness :
    (0x08 : Nat) < 256 ∧
      send_request 0x08 true true =
        [true, true, true, false, true,
         Bool.xor (Bool.xor true true)
           (Bool.xor ((0x08 : Nat).testBit 2) ((0x08 : Nat).testBit 3)),
         false, true] :=
  ⟨by decide, send_request_header_layout 0x08 (by decide) true true⟩

/-! ## Register layer: bounded retry loops (swd_core.c)

`swd_dp_read`, `swd_dp_write`, `swd_ap_read`, `swd_ap_write` share the
retry shape

```c
for (int retry = 0; retry < 10; retry++) {
    swd_ack_t ack = swd_transfer_raw(...);
    if (ack == SWD_ACK_OK)      { ...; return ...; }
    else if (ack == SWD_ACK_WAIT)  vTaskDelay(1);
    else if (ack == SWD_ACK_FAULT) swd_clear_errors();
}
return ESP_FAIL;
```

The acknowledgement of the `i`-th raw transfer issued on the wire is
supplied by an oracle `acks : Nat → Nat`; each function returns the
`esp_err_t` result together with the index after its last raw transfer,
so `final - initial` counts the raw transfer attempts.
`swd_clear_errors` performs `swd_dp_write(DP_ABORT, 0x1E)`, which is
itself such a retry loop; that mutual recursion is unbounded in C (a
persistently faulting target would recurse forever), so the model bounds
its depth with `fuel`, a bound never reached in the claims below, which
concern acknowledgement streams without `FAULT`. -/

def swd_retry_loop (fuel : Nat) (acks : Nat → Nat) (n : Nat) (retries : Nat) :
    Int × Nat :=
  match retries with
  | 0 => (ESP_FAIL, n)
  | r + 1 =>
    let a := acks n
    if a = SWD_ACK_OK then (ESP_OK, n + 1)
    else if a = SWD_ACK_WAIT then swd_retry_loop fuel acks (n + 1) r
    else if a = SWD_ACK_FAULT then
      match fuel with
      | 0 => (ESP_FAIL, n + 1)
      | f + 1 =>
        let p := swd_retry_loop f acks (n + 1) 10
        swd_retry_loop (f + 1) acks p.2 r
    else swd_retry_loop fuel acks (n + 1) r
termination_by (fuel, retries)

def swd_dp_read (initialized : Bool) (fuel : Nat) (acks : Nat → Nat) (n : Nat) :
    Int × Nat :=
  if ¬ initialized then (ESP_ERR_INVALID_STATE, n)
  else swd_retry_loop fuel acks n 10

def swd_dp_write (initialized : Bool) (fuel : Nat) (acks : Nat → Nat) (n : Nat) :
    Int × Nat :=
  if ¬ initialized then (ESP_ERR_INVALID_STATE, n)
  else swd_retry_loop fuel acks n 10

def swd_ap_write (initialized : Bool) (fuel : Nat) (acks : Nat → Nat) (n : Nat) :
    Int × Nat :=
  if ¬ initialized then (ESP_ERR_INVALID_STATE, n)
  else swd_retry_loop fuel acks n 10

/-- `swd_ap_read`: same loop, except that on `OK` the pipelined value is
fetched by a nested `swd_dp_read(DP_RDBUFF, data)`. -/
def swd_ap_read_loop (fuel : Nat) (acks : Nat → Nat) (n : Nat) (retries : Nat) :
    Int × Nat :=
  match retries with
  | 0 => (ESP_FAIL, n)
  | r + 1 =>
    let a := acks n
    if a = SWD_ACK_OK then swd_retry_loop fuel acks (n + 1) 10
    else if a = SWD_ACK_WAIT then swd_ap_read_loop fuel acks (n + 1) r
    else if a = SWD_ACK_FAULT then
      match fuel with
      | 0 => (ESP_FAIL, n + 1)
      | f + 1 =>
        let p := swd_retry_loop f acks (n + 1) 10
        swd_ap_read_loop (f + 1) acks p.2 r
    else swd_ap_read_loop fuel acks (n + 1) r
termination_by (fuel, retries)

def swd_ap_read (initialized : Bool) (fuel : Nat) (acks : Nat → Nat) (n : Nat) :
    Int × Nat :=
  if ¬ initialized then (ESP_ERR_INVALID_STATE, n)
  else swd_ap_read_loop fuel acks n 10

theorem swd_retry_loop_all_wait (acks : Nat → Nat)
    (hw : ∀ i, acks i = SWD_ACK_WAIT) (fuel : Nat) :
    ∀ r n, swd_retry_loop fuel acks n r = (ESP_FAIL, n + r) := by
  intro r
  induction r with
  | zero => intro n; simp [swd_retry_loop]
  | succ r ih =>
      intro n
      rw [swd_retry_loop.eq_def]
      simp only [hw]
      norm_num [SWD_ACK_WAIT, SWD_ACK_OK, SWD_ACK_FAULT]
      rw [ih]
      have h : n + 1 + r = n + (r + 1) := by omega
      rw [h]

theorem swd_ap_read_loop_all_wait (acks : Nat → Nat)
    (hw : ∀ i, acks i = SWD_ACK_WAIT) (fuel : Nat) :
    ∀ r n, swd_ap_read_loop fuel acks n r = (ESP_FAIL, n + r) := by
  intro r
  induction r with
  | zero => intro n; simp [swd_ap_read_loop]
  | succ r ih =>
      intro n
      rw [swd_ap_read_loop.eq_def]
      simp only [hw]
      norm_num [SWD_ACK_WAIT, SWD_ACK_OK, SWD_ACK_FAULT]
      rw [ih]
      have h : n + 1 + r = n + (r + 1) := by omega
      rw [h]

/-- C3 counterexample: fed only `WAIT` acknowledgements, `swd_dp_read`
does stop after exactly 10 raw transfer attempts, but it fails with the
generic `ESP_FAIL`, not with the distinct timeout code
`ESP_ERR_TIMEOUT` the claim describes. -/
theorem swd_retry_no_timeout_code_counterexample :
    swd_dp_read true 0 (fun _ => SWD_ACK_WAIT) 0 = (ESP_FAIL, 10) ∧
      ESP_FAIL ≠ ESP_ERR_TIMEOUT := by
  constructor
  · show swd_dp_read true 0 (fun _ => SWD_ACK_WAIT) 0 = (ESP_FAIL, 10)
    unfold swd_dp_read
    simp only [Bool.not_true, if_neg]
    rw [swd_retry_loop_all_wait (fun _ => SWD_ACK_WAIT) (fun _ => rfl) 0 10 0]
    simp
  · decide

/-- C3 (amended): each of the four register-access entry points, when
every raw transfer attempt acknowledges `WAIT`, performs exactly 10 raw
transfer attempts — never more, never fewer — and then fails with the
generic `ESP_FAIL` error (which is not the distinct `ESP_ERR_TIMEOUT`
code). -/
theorem swd_register_retry_bound (acks : Nat → Nat)
    (hw : ∀ i, acks i = SWD_ACK_WAIT) (fuel n : Nat) :
    swd_dp_read true fuel acks n = (ESP_FAIL, n + 10) ∧
    swd_dp_write true fuel acks n = (ESP_FAIL, n + 10) ∧
    swd_ap_read true fuel acks n = (ESP_FAIL, n + 10) ∧
    swd_ap_write true fuel acks n = (ESP_FAIL, n + 10) ∧
    ESP_FAIL ≠ ESP_ERR_TIMEOUT := by
  refine ⟨?_, ?_, ?_, ?_, by decide⟩
  · unfold swd_dp_read
    simp only [Bool.not_true, if_neg]
    rw [swd_retry_loop_all_wait acks hw fuel 10 n]
    simp
  · unfold swd_dp_write
    simp only [Bool.not_true, if_neg]
    rw [swd_retry_loop_all_wait acks hw fuel 10 n]
    simp
  · unfold swd_ap_read
    simp only [Bool.not_true, if_neg]
    rw [swd_ap_read_loop_all_wait acks hw fuel 10 n]
    simp
  · unfold swd_ap_write
    simp only [Bool.not_true, if_neg]
    rw [swd_retry_loop_all_wait acks hw fuel 10 n]
    simp

/-- Witness for C3 (amended) on the concrete all-`WAIT` oracle. -/
theorem swd_register_retry_bound_witness :
    swd_dp_read true 3 (fun _ => SWD_ACK_WAIT) 7 = (ESP_FAIL, 7 + 10) ∧
    swd_dp_write true 3 (fun _ => SWD_ACK_WAIT) 7 = (ESP_FAIL, 7 + 10) ∧
    swd_ap_read true 3 (fun _ => SWD_ACK_WAIT) 7 = (ESP_FAIL, 7 + 10) ∧
    swd_ap_write true 3 (fun _ => SWD_ACK_WAIT) 7 = (ESP_FAIL, 7 + 10) ∧
    ESP_FAIL ≠ ESP_ERR_TIMEOUT :=
  swd_register_retry_bound (fun _ => SWD_ACK_WAIT) (fun _ => rfl) 3 7

/-! ## Register layer: connection establishment (swd_core.c, swd_connect)

```c
esp_err_t swd_connect(void) {
    if (!initialized) return ESP_ERR_INVALID_STATE;
    dormant_wakeup();
    uint32_t idcode = 0;
    esp_err_t ret = swd_dp_read(DP_IDCODE, &idcode);
    if (ret != ESP_OK || idcode == 0 || idcode == 0xFFFFFFFF) {
        line_reset();
        jtag_to_swd();
        ret = swd_dp_read(DP_IDCODE, &idcode);
        if (ret != ESP_OK || idcode == 0 || idcode == 0xFFFFFFFF)
            return ESP_FAIL;
    }
    ret = swd_power_up();
    if (ret != ESP_OK) return ret;
    connected = true;
    return ESP_OK;
}
```

The wire sequences emitted and the probes/power-up attempts performed
are recorded as a trace of `ConnectAct` events.  An IDCODE probe
(`swd_dp_read` of `DP_IDCODE`) is abstracted as an `Option Nat`: `none`
when the read failed, `some v` when it returned `v`.  `jtag_to_swd`
internally ends with its own additional line reset; the `jtagToSwd`
event stands for that whole sequence. -/

inductive ConnectAct where
  | dormantWake
  | probeIdcode
  | lineReset
  | jtagToSwd
  | powerUp
deriving Repr, DecidableEq

/-- An IDCODE probe outcome is implausible when the read failed or the
value is 0 or all-ones: `ret != ESP_OK || idcode == 0 || idcode == 0xFFFFFFFF`. -/
def badProbe : Option Nat → Prop
  | none => True
  | some v => v = 0 ∨ v = 0xFFFFFFFF

instance : DecidablePred badProbe := by
  intro o
  cases o <;> simp [badProbe] <;> infer_instance

def swd_connect (initialized : Bool) (p1 p2 : Option Nat) (powerUpRet : Int) :
    Int × List ConnectAct :=
  if ¬ initialized then (ESP_ERR_INVALID_STATE, [])
  else
    if badProbe p1 then
      if badProbe p2 then
        (ESP_FAIL,
         [ConnectAct.dormantWake, ConnectAct.probeIdcode,
          ConnectAct.lineReset, ConnectAct.jtagToSwd, ConnectAct.probeIdcode])
      else
        (if powerUpRet ≠ ESP_OK then powerUpRet else ESP_OK,
         [ConnectAct.dormantWake, ConnectAct.probeIdcode,
          ConnectAct.lineReset, ConnectAct.jtagToSwd, ConnectAct.probeIdcode,
          ConnectAct.powerUp])
    else
      (if powerUpRet ≠ ESP_OK then powerUpRet else ESP_OK,
       [ConnectAct.dormantWake, ConnectAct.probeIdcode, ConnectAct.powerUp])

/-- C8: `swd_connect` first performs the dormant-wake sequence and
probes the IDCODE; when that probe fails to read or yields `0` or
`0xFFFFFFFF`, it performs a line reset followed by the legacy
JTAG-to-SWD switch sequence and probes the IDCODE a second time before
any failure is declared; and it returns the connection-failure result
(`ESP_FAIL` without ever attempting the debug power-up) exactly when
both probes yield an implausible IDCODE. -/
theorem swd_connect_fallback (p1 p2 : Option Nat) (powerUpRet : Int) :
    (badProbe p1 →
      (swd_connect true p1 p2 powerUpRet).2 =
        ConnectAct.dormantWake :: ConnectAct.probeIdcode ::
        ConnectAct.lineReset :: ConnectAct.jtagToSwd ::
        ConnectAct.probeIdcode ::
          (if badProbe p2 then [] else [ConnectAct.powerUp])) ∧
    (((swd_connect true p1 p2 powerUpRet).1 = ESP_FAIL ∧
        ConnectAct.powerUp ∉ (swd_connect true p1 p2 powerUpRet).2) ↔
      (badProbe p1 ∧ badProbe p2)) := by
  constructor
  · intro h1
    by_cases h2 : badProbe p2 <;> simp [swd_connect, h1, h2]
  · by_cases h1 : badProbe p1 <;> by_cases h2 : badProbe p2 <;>
      by_cases hp : powerUpRet = ESP_OK <;>
      simp [swd_connect, h1, h2, hp] <;> intro h <;> simp [h, ESP_FAIL, ESP_OK]

/-- Witness for C8: a dormant-wake probe reading `0xFFFFFFFF` followed by
a successful legacy probe reaches power-up after the legacy switch. -/
theorem swd_connect_fallback_witness :
    (badProbe (some 0xFFFFFFFF) →
      (swd_connect true (some 0xFFFFFFFF) (some 0x2BA01477) ESP_OK).2 =
        ConnectAct.dormantWake :: ConnectAct.probeIdcode ::
        ConnectAct.lineReset :: ConnectAct.jtagToSwd ::
        ConnectAct.probeIdcode ::
          (if badProbe (some 0x2BA01477) then [] else [ConnectAct.powerUp])) ∧
    (((swd_connect true (some 0xFFFFFFFF) (some 0x2BA01477) ESP_OK).1 = ESP_FAIL ∧
        ConnectAct.powerUp ∉
          (swd_connect true (some 0xFFFFFFFF) (some 0x2BA01477) ESP_OK).2) ↔
      (badProbe (some 0xFFFFFFFF) ∧ badProbe (some 0x2BA01477))) :=
  swd_connect_fallback (some 0xFFFFFFFF) (some 0x2BA01477) ESP_OK

/-! ## Intel-HEX stream parser (hex_parser.c)

A C string is modelled as a `List Char`; `strlenC` is `strlen` (length
up to the first NUL), and `getC` is direct indexing (reading past the
end of the buffer is modelled as reading NUL, which the length checks
rule out on the paths that index). -/

def strlenC (l : List Char) : Nat :=
  (l.takeWhile (fun c => c ≠ Char.ofNat 0)).length

def getC (l : List Char) (i : Nat) : Char := l.getD i (Char.ofNat 0)

def hex_char_to_byte (c : Char) : Nat :=
  if '0' ≤ c ∧ c ≤ '9' then c.toNat - '0'.toNat
  else if 'A' ≤ c ∧ c ≤ 'F' then c.toNat - 'A'.toNat + 10
  else if 'a' ≤ c ∧ c ≤ 'f' then c.toNat - 'a'.toNat + 10
  else 0

def hex_to_byte (l : List Char) (i : Nat) : Nat :=
  (hex_char_to_byte (getC l i)) <<< 4 ||| hex_char_to_byte (getC l (i + 1))

structure HexRec where
  byte_count : Nat
  address : Nat
  type : Nat
  data : List Nat
  checksum : Nat
deriving Repr, DecidableEq

/-- `parse_hex_line`: parses one text line into a record, rejecting it
when the leading `:` is missing, the line is too short for its declared
byte count, or the trailing checksum byte does not equal the two's
complement (in 8 bits) of the sum of the byte count, the two address
bytes, the type byte and all data bytes. -/
def parse_hex_line (line : List Char) : Except Int HexRec :=
  if getC line 0 ≠ ':' then .error ESP_ERR_INVALID_ARG
  else if strlenC line < 11 then .error ESP_ERR_INVALID_SIZE
  else
    let bc := hex_to_byte line 1
    let addr := (hex_to_byte line 3) <<< 8 ||| hex_to_byte line 5
    let ty := hex_to_byte line 7
    if strlenC line < 11 + bc * 2 then .error ESP_ERR_INVALID_SIZE
    else
      let data := (List.range bc).map (fun i => hex_to_byte line (9 + i * 2))
      let chk := hex_to_byte line (9 + bc * 2)
      let sum8 := (bc + (addr >>> 8) + (addr &&& 0xFF) + ty + data.sum) % 256
      let comp := (256 - sum8) % 256
      if comp ≠ chk then .error ESP_ERR_INVALID_CRC
      else .ok ⟨bc, addr, ty, data, chk⟩

/-- Stream parser state: the two address-extension bases, the
accumulating line buffer, and the line/data counters. -/
structure HexSt where
  extended_addr : Nat
  segment_addr : Nat
  lineBuf : List Char
  line_count : Nat
  data_bytes : Nat
deriving Repr, DecidableEq

/-- One completed line, as handled inside `hex_stream_parse` when a line
delimiter arrives: a line that fails to parse is logged and discarded;
a parsed record is dispatched on its type, invoking the callback for
data records (with the resolved absolute address) and for the EOF
record, and updating the extension bases for types 4 and 2.  The
callback invocations are returned as an event list. -/
def processLine (st : HexSt) : HexSt × List (HexRec × Nat) :=
  match parse_hex_line st.lineBuf with
  | .error _ => ({ st with lineBuf := [] }, [])
  | .ok r =>
    let st1 := { st with line_count := st.line_count + 1, lineBuf := [] }
    match r.type with
    | 0 => ({ st1 with data_bytes := st1.data_bytes + r.byte_count },
            [(r, r.address + st.extended_addr + st.segment_addr)])
    | 1 => (st1, [(r, 0)])
    | 4 => ({ st1 with extended_addr :=
              ((r.data.getD 0 0) <<< 24) ||| ((r.data.getD 1 0) <<< 16) }, [])
    | 2 => ({ st1 with segment_addr :=
              (((r.data.getD 0 0) <<< 8) ||| r.data.getD 1 0) <<< 4 }, [])
    | _ => (st1, [])

/-- `hex_stream_parse` over one input chunk: accumulates characters into
the line buffer, processes a completed line at each `\n`/`\r`, resets
the buffer when a line overflows it, and returns `ESP_OK` with the final
state and the concatenated callback events. -/
def hex_stream_parse (st : HexSt) : List Char → Int × HexSt × List (HexRec × Nat)
  | [] => (ESP_OK, st, [])
  | c :: rest =>
    if c = '\n' ∨ c = '\r' then
      if st.lineBuf ≠ [] then
        let pr := processLine st
        let res := hex_stream_parse pr.1 rest
        (res.1, res.2.1, pr.2 ++ res.2.2)
      else hex_stream_parse st rest
    else if st.lineBuf.length < 599 then
      hex_stream_parse { st with lineBuf := st.lineBuf ++ [c] } rest
    else
      hex_stream_parse { st with lineBuf := [] } rest

/-- C10: the stream parser invokes the callback only for lines whose
Intel-HEX checksum verifies — any record it emits satisfies the
checksum equation (checksum byte = two's complement of the sum of byte
count, address bytes, type and data bytes); a line that fails parsing or
checksum verification is discarded with no callback and parsing
continues with an empty line buffer and unchanged bases; and
`hex_stream_parse` returns `ESP_OK` for every chunk regardless of
corrupt lines. -/
theorem hex_stream_checksum_gate :
    (∀ st input, (hex_stream_parse st input).1 = ESP_OK) ∧
    (∀ line r, parse_hex_line line = .ok r →
      r.checksum =
        (256 - (r.byte_count + (r.address >>> 8) + (r.address &&& 0xFF) +
          r.type + r.data.sum) % 256) % 256) ∧
    (∀ st e, parse_hex_line st.lineBuf = .error e →
      processLine st = ({ st with lineBuf := [] }, [])) := by
  refine ⟨?_, ?_, ?_⟩
  · intro st input
    induction input generalizing st with
    | nil => rfl
    | cons c rest ih =>
        rw [hex_stream_parse]
        split
        · split
          · exact ih _
          · exact ih _
        · split
          · exact ih _
          · exact ih _
  · intro line r h
    unfold parse_hex_line at h
    dsimp only at h
    split at h
    · exact absurd h (by simp)
    · split at h
      · exact absurd h (by simp)
      · split at h
        · exact absurd h (by simp)
        · split at h
          · exact absurd h (by simp)
          · rename_i hcomp
            simp only [Except.ok.injEq] at h
            subst h
            simp only [ne_eq, not_not] at hcomp
            exact hcomp.symm
  · intro st e h
    unfold processLine
    rw [h]

/-- Witness for C10: the EOF line `:00000001FF` parses with a valid
checksum, a corrupt line `x` is discarded with no events, and a chunk
containing both still returns `ESP_OK`. -/
theorem hex_stream_checksum_gate_witness :
    (hex_stream_parse ⟨0, 0, [], 0, 0⟩
        [':', '0', '0', '0', '0', '0', '0', '0', '1', 'F', 'F', '\n', 'x', '\n']).1 =
      ESP_OK ∧
    (⟨0, 0, 1, [], 0xFF⟩ : HexRec).checksum =
      (256 - ((0 : Nat) + ((0 : Nat) >>> 8) + ((0 : Nat) &&& 0xFF) +
        1 + ([] : List Nat).sum) % 256) % 256 ∧
    processLine ⟨0, 0, ['x'], 0, 0⟩ = (⟨0, 0, [], 0, 0⟩, []) :=
  ⟨hex_stream_checksum_gate.1 ⟨0, 0, [], 0, 0⟩ _,
   hex_stream_checksum_gate.2.1
     [':', '0', '0', '0', '0', '0', '0', '0', '1', 'F', 'F']
     ⟨0, 0, 1, [], 0xFF⟩ (by rfl),
   hex_stream_checksum_gate.2.2 ⟨0, 0, ['x'], 0, 0⟩ ESP_ERR_INVALID_ARG (by rfl)⟩

/-! ## Flash engine buffering (web_upload.c)

`hex_flash_callback` accumulates data records into a 4 KiB page buffer
(`PAGE_BUFFER_SIZE`), flushing it to flash via `flush_buffer` when a
record cannot be placed in the current window, on an
extended-linear-address record with a non-empty buffer, and on EOF.
The state tracked here is the window descriptor
`{buffer_start_addr, buffer_data_len}`; the returned `Bool` records
whether `flush_buffer` was invoked while handling the record. -/

def PAGE_BUFFER_SIZE : Nat := 4 * 1024

structure BufSt where
  buffer_start_addr : Nat
  buffer_data_len : Nat
deriving Repr, DecidableEq

/-- One decoded record as seen by the callback: a data record with its
resolved absolute address and byte count, the EOF record, an
extended-linear-address record, or any other record type (which the
callback's `switch` ignores). -/
inductive UpRec where
  | data (addr : Nat) (count : Nat)
  | eof
  | extLin
  | other
deriving Repr, DecidableEq

/-- `hex_flash_callback` (web_upload.c:156).  For a data record: an empty
buffer is (re)initialised at the record's address without flushing; a
record starting below the window start or extending past
`PAGE_BUFFER_SIZE` flushes and re-initialises; otherwise the record is
copied at its offset and the length grows to `max len (offset+count)`.
`flush_buffer` resets the length to 0.  EOF always invokes
`flush_buffer`; an extended-linear-address record invokes it only when
the buffer is non-empty. -/
def hex_flash_callback (s : BufSt) (r : UpRec) : BufSt × Bool :=
  match r with
  | .data addr count =>
    if s.buffer_data_len = 0 then
      ({ buffer_start_addr := addr,
         buffer_data_len := max s.buffer_data_len count }, false)
    else if addr < s.buffer_start_addr ∨
        addr - s.buffer_start_addr + count > PAGE_BUFFER_SIZE then
      ({ buffer_start_addr := addr, buffer_data_len := max 0 count }, true)
    else
      ({ s with buffer_data_len := max s.buffer_data_len (addr - s.buffer_start_addr + count) }, false)
  | .eof => ({ s with buffer_data_len := 0 }, true)
  | .extLin =>
    if s.buffer_data_len > 0 then ({ s with buffer_data_len := 0 }, true)
    else (s, false)
  | .other => (s, false)

/-- The amended flush condition: EOF always; extended-linear-address
when the buffer is non-empty; a data record when the buffer is non-empty
and the record does not fit the current window (starts below it or ends
past its 4 KiB capacity).  Non-contiguous records that still fit are
merged without a flush. -/
def flushTrigger (s : BufSt) (r : UpRec) : Prop :=
  match r with
  | .data addr count =>
    s.buffer_data_len ≠ 0 ∧
      ¬ (s.buffer_start_addr ≤ addr ∧
         addr - s.buffer_start_addr + count ≤ PAGE_BUFFER_SIZE)
  | .eof => True
  | .extLin => s.buffer_data_len ≠ 0
  | .other => False

instance (s : BufSt) (r : UpRec) : Decidable (flushTrigger s r) := by
  cases r <;> simp [flushTrigger] <;> infer_instance

/-- Feeding a record sequence through the callback, collecting the
per-record flush flags. -/
def runCallback (s : BufSt) : List UpRec → BufSt × List Bool
  | [] => (s, [])
  | r :: rest =>
    let p := hex_flash_callback s r
    let q := runCallback p.1 rest
    (q.1, p.2 :: q.2)

/-- The flush flags the amended claim predicts along the same run. -/
def claimFlags (s : BufSt) : List UpRec → List Bool
  | [] => []
  | r :: rest =>
    decide (flushTrigger s r) :: claimFlags (hex_flash_callback s r).1 rest

theorem hex_flash_callback_flush_iff (s : BufSt) (r : UpRec) :
    (hex_flash_callback s r).2 = true ↔ flushTrigger s r := by
  cases r with
  | data addr count =>
      by_cases h0 : s.buffer_data_len = 0
      · simp [hex_flash_callback, flushTrigger, h0]
      · rw [show hex_flash_callback s (UpRec.data addr count) =
            (if s.buffer_data_len = 0 then
              ({ buffer_start_addr := addr,
                 buffer_data_len := max s.buffer_data_len count }, false)
            else if addr < s.buffer_start_addr ∨
                addr - s.buffer_start_addr + count > PAGE_BUFFER_SIZE then
              ({ buffer_start_addr := addr, buffer_data_len := max 0 count }, true)
            else
              ({ s with buffer_data_len := max s.buffer_data_len (addr - s.buffer_start_addr + count) }, false))
            from rfl]
        rw [if_neg h0]
        by_cases hfit : addr < s.buffer_start_addr ∨
            addr - s.buffer_start_addr + count > PAGE_BUFFER_SIZE
        · rw [if_pos hfit]
          constructor
          · intro _
            refine ⟨h0, ?_⟩
            rintro ⟨hle, hle2⟩
            rcases hfit with hf | hf <;> omega
          · intro _
            rfl
        · rw [if_neg hfit]
          constructor
          · intro hcontra
            exact absurd hcontra (by simp)
          · rintro ⟨-, hnot⟩
            exfalso
            apply hnot
            push_neg at hfit
            exact ⟨by omega, by omega⟩
  | eof => simp [hex_flash_callback, flushTrigger]
  | extLin =>
      by_cases h : s.buffer_data_len > 0 <;>
        (simp [hex_flash_callback, flushTrigger, h]; try omega)
  | other => simp [hex_flash_callback, flushTrigger]

/-- C6 counterexample: with 16 buffered bytes at `0x1000` (a state
reached from the empty buffer by one data record), a data record at
`0x1100` is not contiguous with the buffer content (`0x1000+16`), yet
fits the 4 KiB window, and the callback does **not** flush — the claim
predicts a flush for any non-contiguous record. -/
theorem hex_flash_flush_contiguity_counterexample :
    hex_flash_callback ⟨0, 0⟩ (UpRec.data 0x1000 16) = (⟨0x1000, 16⟩, false) ∧
    (hex_flash_callback ⟨0x1000, 16⟩ (UpRec.data 0x1100 16)).2 = false ∧
    (0x1100 : Nat) ≠ 0x1000 + 16 ∧
    (0x1000 : Nat) ≤ 0x1100 ∧ (0x1100 : Nat) - 0x1000 + 16 ≤ PAGE_BUFFER_SIZE := by
  refine ⟨by decide, by decide, by decide, by decide, by decide⟩

/-- C6 (amended): along any record sequence fed to the callback, a flush
is invoked exactly on: (a) an EOF record, (b) an extended-linear-address
record arriving while the buffer is non-empty, and (c) a data record,
arriving while the buffer is non-empty, that does not fit the remaining
buffer window (it starts below the window start or would extend past the
window's 4 KiB capacity); no other record causes a flush, and in
particular a non-contiguous data record that still fits the window is
merged without a flush. -/
theorem hex_flash_flush_exact_triggers (s : BufSt) (rs : List UpRec) :
    (runCallback s rs).2 = claimFlags s rs := by
  induction rs generalizing s with
  | nil => rfl
  | cons r rest ih =>
      rw [runCallback, claimFlags]
      have hf : (hex_flash_callback s r).2 = decide (flushTrigger s r) := by
        cases h : (hex_flash_callback s r).2 with
        | false =>
            have ht : ¬ flushTrigger s r := fun ht => by
              have h2 := (hex_flash_callback_flush_iff s r).mpr ht
              rw [h] at h2
              cases h2
            simp [ht]
        | true =>
            have ht := (hex_flash_callback_flush_iff s r).mp h
            simp [ht]
      rw [hf, ih]

/-! ## Memory access layer: block writes (swd_mem.c)

The sequence of access-port operations a memory-write routine issues on
the wire is modelled as a list of `MemOp`: CSW (control/status) writes,
TAR (target address register) writes, DRW (data read/write register)
writes, and RDBUFF drains.  `swd_mem_write32` issues
`TAR := addr; DRW := data; read RDBUFF`.  `swd_mem_write_block32`
(swd_mem.c:392) issues one CSW configuration write, then chunks the
words so that no chunk crosses the fixed 1 KiB (`0x400`) auto-increment
boundary, issuing one TAR write per chunk followed by the chunk's DRW
writes and one RDBUFF drain. -/

def CSW_SIZE_32BIT : Nat := 0x00000002

def CSW_ADDRINC_ON : Nat := 0x00000010

def CSW_DEVICE_EN : Nat := 0x00000040

def CSW_MASTER_DBG : Nat := 0x20000000

inductive MemOp where
  | csw (v : Nat)
  | tar (a : Nat)
  | drw (v : Nat)
  | rdbuff
deriving Repr, DecidableEq

def swd_mem_write32_ops (addr v : Nat) : List MemOp :=
  [MemOp.tar addr, MemOp.drw v, MemOp.rdbuff]

/-- The operations issued by writing the words one at a time with
`swd_mem_write32` at consecutive word addresses. -/
def writeSeqOps (addr : Nat) : List Nat → List MemOp
  | [] => []
  | v :: vs => swd_mem_write32_ops addr v ++ writeSeqOps (addr + 4) vs

/-- The chunking loop of `swd_mem_write_block32`.  `fuel` is an upper
bound on the number of words left (the C loop needs none: each
iteration consumes at least one word because a word-aligned address is
at least one word away from the next 1 KiB boundary). -/
def wordsInPage (addr n : Nat) : Nat := min ((0x400 - addr % 0x400) / 4) n

def blockLoop : Nat → Nat → List Nat → List MemOp
  | 0, _, _ => []
  | fuel + 1, addr, data =>
    if data.isEmpty then []
    else
      let wip := wordsInPage addr data.length
      MemOp.tar addr :: (data.take wip).map MemOp.drw ++
        MemOp.rdbuff :: blockLoop fuel (addr + wip * 4) (data.drop wip)

/-- `swd_mem_write_block32`: rejects an empty word list and a
non-word-aligned start address, then issues the CSW configuration and
the boundary-aware chunk sequence. -/
def swd_mem_write_block32 (addr : Nat) (data : List Nat) : Option (List MemOp) :=
  if data.isEmpty then none
  else if addr % 4 ≠ 0 then none
  else some (MemOp.csw (CSW_ADDRINC_ON ||| CSW_SIZE_32BIT ||| CSW_DEVICE_EN |||
      CSW_MASTER_DBG) :: blockLoop data.length addr data)

/-- The access port's auto-increment: after each DRW access the TAR
increments by 4 but wraps within the fixed 1 KiB window (the known
protocol hazard the chunking must respect). -/
def tarIncr (t : Nat) : Nat := (t / 0x400) * 0x400 + (t + 4) % 0x400

/-- Observable semantics of an operation list on the access port: the
list of (address, word) pairs written to target memory, given the
initial TAR value `t`. -/
def runAP (t : Nat) : List MemOp → List (Nat × Nat)
  | [] => []
  | MemOp.csw _ :: rest => runAP t rest
  | MemOp.tar a :: rest => runAP a rest
  | MemOp.drw v :: rest => (t, v) :: runAP (tarIncr t) rest
  | MemOp.rdbuff :: rest => runAP t rest

/-- The intended write sequence: the `i`-th word lands at `addr + 4*i`. -/
def seqWrites (addr : Nat) : List Nat → List (Nat × Nat)
  | [] => []
  | v :: vs => (addr, v) :: seqWrites (addr + 4) vs

/-- The TAR values issued by an operation list. -/
def tarsOf (ops : List MemOp) : List Nat :=
  ops.filterMap (fun op => match op with | MemOp.tar a => some a | _ => none)

/-- The 1 KiB boundary crossings strictly inside the written range. -/
def boundaryTars (addr n : Nat) : List Nat :=
  (List.range n).filterMap (fun i =>
    if i ≠ 0 ∧ (addr + 4 * i) % 0x400 = 0 then some (addr + 4 * i) else none)

theorem filterMap_ext_fun {α β : Type} (f g : α → Option β) (l : List α)
    (h : ∀ a, f a = g a) : l.filterMap f = l.filterMap g := by
  rw [funext h]

theorem filterMap_none {α β : Type} (l : List α) :
    l.filterMap (fun _ => (none : Option β)) = [] := by
  induction l with
  | nil => rfl
  | cons a l ih => simp [List.filterMap, ih]

theorem runAP_writeSeqOps (data : List Nat) :
    ∀ t addr, runAP t (writeSeqOps addr data) = seqWrites addr data := by
  induction data with
  | nil => intro t addr; rfl
  | cons v vs ih =>
      intro t addr
      have step : runAP t (writeSeqOps addr (v :: vs)) =
          (addr, v) :: runAP (tarIncr addr) (writeSeqOps (addr + 4) vs) := rfl
      rw [step, ih]
      rfl

theorem seqWrites_append (l1 l2 : List Nat) :
    ∀ addr, seqWrites addr (l1 ++ l2) =
      seqWrites addr l1 ++ seqWrites (addr + 4 * l1.length) l2 := by
  induction l1 with
  | nil => intro addr; simp [seqWrites]
  | cons v vs ih =>
      intro addr
      have h : addr + 4 + 4 * vs.length = addr + 4 * (vs.length + 1) := by omega
      rw [List.cons_append]
      simp only [seqWrites, List.length_cons]
      rw [ih (addr + 4), h]
      rfl

theorem seqWrites_fst (l : List Nat) :
    ∀ addr, (seqWrites addr l).map Prod.fst =
      (List.range l.length).map (fun i => addr + 4 * i) := by
  induction l with
  | nil => intro addr; rfl
  | cons v vs ih =>
      intro addr
      simp only [seqWrites, List.map_cons, List.length_cons, ih]
      rw [List.range_succ_eq_map]
      simp only [List.map_cons, List.map_map]
      have h0 : addr + 4 * 0 = addr := by omega
      rw [h0]
      congr 1
      apply List.map_congr_left
      intro i _
      simp only [Function.comp]
      omega

theorem runAP_drw_chunk (l : List Nat) :
    ∀ (t : Nat) (rest : List MemOp), t % 4 = 0 →
      t % 0x400 + 4 * l.length ≤ 0x400 →
      ∃ t', runAP t (l.map MemOp.drw ++ rest) =
        seqWrites t l ++ runAP t' rest := by
  induction l with
  | nil =>
      intro t rest _ _
      exact ⟨t, by simp [seqWrites]⟩
  | cons v vs ih =>
      intro t rest ht4 hlen
      cases vs with
      | nil =>
          refine ⟨tarIncr t, ?_⟩
          simp [runAP, seqWrites]
      | cons w ws =>
          have hlen' : t % 0x400 + 4 < 0x400 := by
            simp only [List.length_cons] at hlen
            omega
          have hwrap : tarIncr t = t + 4 := by
            unfold tarIncr
            omega
          have hrec := ih (t + 4) rest (by omega)
            (by simp only [List.length_cons] at hlen ⊢; omega)
          obtain ⟨t', hrec⟩ := hrec
          refine ⟨t', ?_⟩
          have step : runAP t (List.map MemOp.drw (v :: w :: ws) ++ rest) =
              (t, v) :: runAP (tarIncr t) (List.map MemOp.drw (w :: ws) ++ rest) :=
            rfl
          rw [step, hwrap, hrec]
          simp [seqWrites]

theorem wordsInPage_pos (addr n : Nat) (h4 : addr % 4 = 0) (hn : 1 ≤ n) :
    1 ≤ wordsInPage addr n := by
  have hmm : addr % 0x400 % 4 = addr % 4 := Nat.mod_mod_of_dvd addr (by norm_num)
  unfold wordsInPage
  have : addr % 0x400 < 0x400 := Nat.mod_lt _ (by norm_num)
  omega

theorem wordsInPage_le (addr n : Nat) : wordsInPage addr n ≤ n :=
  Nat.min_le_right _ _

theorem wordsInPage_bound (addr n : Nat) :
    addr % 0x400 + 4 * wordsInPage addr n ≤ 0x400 := by
  have h1 : wordsInPage addr n ≤ (0x400 - addr % 0x400) / 4 := Nat.min_le_left _ _
  have : addr % 0x400 < 0x400 := Nat.mod_lt _ (by norm_num)
  omega

theorem wordsInPage_boundary (addr n : Nat) (h4 : addr % 4 = 0)
    (h : wordsInPage addr n < n) :
    addr % 0x400 + 4 * wordsInPage addr n = 0x400 := by
  have hmm : addr % 0x400 % 4 = addr % 4 := Nat.mod_mod_of_dvd addr (by norm_num)
  have hlt : addr % 0x400 < 0x400 := Nat.mod_lt _ (by norm_num)
  have hmin : wordsInPage addr n = (0x400 - addr % 0x400) / 4 := by
    unfold wordsInPage at h ⊢
    omega
  rw [hmin]
  omega

theorem blockLoop_nil (fuel addr : Nat) : blockLoop fuel addr [] = [] := by
  cases fuel <;> rfl

theorem blockLoop_cons (fuel addr : Nat) (v : Nat) (vs : List Nat) :
    blockLoop (fuel + 1) addr (v :: vs) =
      MemOp.tar addr ::
        ((v :: vs).take (wordsInPage addr (v :: vs).length)).map MemOp.drw ++
        MemOp.rdbuff ::
          blockLoop fuel (addr + wordsInPage addr (v :: vs).length * 4)
            ((v :: vs).drop (wordsInPage addr (v :: vs).length)) := by
  rw [blockLoop]
  simp

theorem runAP_blockLoop :
    ∀ (fuel addr : Nat) (data : List Nat) (t : Nat),
      data.length ≤ fuel → addr % 4 = 0 →
      runAP t (blockLoop fuel addr data) = seqWrites addr data := by
  intro fuel
  induction fuel with
  | zero =>
      intro addr data t hle h4
      have hnil : data = [] := by
        cases data with
        | nil => rfl
        | cons v vs => simp at hle
      subst hnil
      rfl
  | succ f ih =>
      intro addr data t hle h4
      cases data with
      | nil => rfl
      | cons v vs =>
          rw [blockLoop_cons]
          have hw1 : 1 ≤ wordsInPage addr (v :: vs).length :=
            wordsInPage_pos addr _ h4 (by simp)
          have hwle : wordsInPage addr (v :: vs).length ≤ (v :: vs).length :=
            wordsInPage_le addr _
          have hwb := wordsInPage_bound addr (v :: vs).length
          have h1 : runAP t (MemOp.tar addr ::
              ((v :: vs).take (wordsInPage addr (v :: vs).length)).map MemOp.drw ++
              MemOp.rdbuff ::
                blockLoop f (addr + wordsInPage addr (v :: vs).length * 4)
                  ((v :: vs).drop (wordsInPage addr (v :: vs).length))) =
              runAP addr
              (((v :: vs).take (wordsInPage addr (v :: vs).length)).map MemOp.drw ++
              MemOp.rdbuff ::
                blockLoop f (addr + wordsInPage addr (v :: vs).length * 4)
                  ((v :: vs).drop (wordsInPage addr (v :: vs).length))) := rfl
          rw [h1]
          obtain ⟨t', h2⟩ := runAP_drw_chunk
            ((v :: vs).take (wordsInPage addr (v :: vs).length)) addr
            (MemOp.rdbuff ::
              blockLoop f (addr + wordsInPage addr (v :: vs).length * 4)
                ((v :: vs).drop (wordsInPage addr (v :: vs).length)))
            h4
            (by rw [List.length_take, Nat.min_eq_left hwle]; omega)
          rw [h2]
          have h3 : runAP t' (MemOp.rdbuff ::
              blockLoop f (addr + wordsInPage addr (v :: vs).length * 4)
                ((v :: vs).drop (wordsInPage addr (v :: vs).length))) =
              runAP t'
              (blockLoop f (addr + wordsInPage addr (v :: vs).length * 4)
                ((v :: vs).drop (wordsInPage addr (v :: vs).length))) := rfl
          rw [h3]
          rw [ih (addr + wordsInPage addr (v :: vs).length * 4)
            ((v :: vs).drop (wordsInPage addr (v :: vs).length)) t'
            (by rw [List.length_drop]; simp only [List.length_cons] at hle hwle hw1 ⊢; omega)
            (by omega)]
          have h5 := seqWrites_append
            ((v :: vs).take (wordsInPage addr (v :: vs).length))
            ((v :: vs).drop (wordsInPage addr (v :: vs).length)) addr
          rw [List.take_append_drop, List.length_take, Nat.min_eq_left hwle] at h5
          have h6 : wordsInPage addr (v :: vs).length * 4 =
              4 * wordsInPage addr (v :: vs).length := by omega
          rw [h6, ← h5]

theorem filterMap_eq_nil_of {α β : Type} (f : α → Option β) :
    ∀ l : List α, (∀ a ∈ l, f a = none) → l.filterMap f = [] := by
  intro l
  induction l with
  | nil => intro _; rfl
  | cons a l ih =>
      intro h
      rw [List.filterMap_cons]
      rw [h a (by simp)]
      exact ih (fun b hb => h b (by simp [hb]))

theorem tarsOf_cons_tar (a : Nat) (l : List MemOp) :
    tarsOf (MemOp.tar a :: l) = a :: tarsOf l := rfl

theorem tarsOf_cons_rdbuff (l : List MemOp) :
    tarsOf (MemOp.rdbuff :: l) = tarsOf l := rfl

theorem tarsOf_drw_chunk (c : List Nat) (l : List MemOp) :
    tarsOf (c.map MemOp.drw ++ l) = tarsOf l := by
  induction c with
  | nil => rfl
  | cons v vs ih => simpa [tarsOf, List.filterMap_cons] using ih

theorem boundaryTars_nil (addr n : Nat)
    (h : addr % 0x400 + 4 * n ≤ 0x400) :
    boundaryTars addr n = [] := by
  unfold boundaryTars
  apply filterMap_eq_nil_of
  intro i hi
  rw [List.mem_range] at hi
  have hcond : ¬ (i ≠ 0 ∧ (addr + 4 * i) % 0x400 = 0) := by
    rintro ⟨hi0, hmod⟩
    omega
  rw [if_neg hcond]

theorem boundaryTars_split (addr n wip : Nat)
    (hw1 : 1 ≤ wip) (hwn : wip < n)
    (hb : addr % 0x400 + 4 * wip = 0x400) :
    boundaryTars addr n =
      (addr + 4 * wip) :: boundaryTars (addr + 4 * wip) (n - wip) := by
  have hsplit : n = wip + (n - wip) := by omega
  have hm : n - wip = (n - wip - 1) + 1 := by omega
  show (List.range n).filterMap (fun i =>
      if i ≠ 0 ∧ (addr + 4 * i) % 0x400 = 0 then some (addr + 4 * i) else none) =
    (addr + 4 * wip) :: boundaryTars (addr + 4 * wip) (n - wip)
  conv_lhs => rw [hsplit]
  rw [List.range_add, List.filterMap_append, List.filterMap_map]
  have h1 : (List.range wip).filterMap (fun i =>
      if i ≠ 0 ∧ (addr + 4 * i) % 0x400 = 0 then some (addr + 4 * i)
      else none) = [] := by
    apply filterMap_eq_nil_of
    intro i hi
    rw [List.mem_range] at hi
    have hcond : ¬ (i ≠ 0 ∧ (addr + 4 * i) % 0x400 = 0) := by
      rintro ⟨hi0, hmod⟩
      omega
    rw [if_neg hcond]
  rw [h1, List.nil_append]
  conv_lhs => rw [hm, List.range_succ_eq_map]
  rw [List.filterMap_cons, List.filterMap_map]
  have hg0 : ((fun i => if i ≠ 0 ∧ (addr + 4 * i) % 0x400 = 0
      then some (addr + 4 * i) else none) ∘ (fun x => wip + x)) 0 =
      some (addr + 4 * wip) := by
    simp only [Function.comp_apply, Nat.add_zero]
    rw [if_pos ⟨by omega, by omega⟩]
  rw [hg0]
  show (addr + 4 * wip) ::
      List.filterMap
        (((fun i => if i ≠ 0 ∧ (addr + 4 * i) % 0x400 = 0
            then some (addr + 4 * i) else none) ∘ (fun x => wip + x)) ∘ Nat.succ)
        (List.range (n - wip - 1)) =
    (addr + 4 * wip) :: boundaryTars (addr + 4 * wip) (n - wip)
  congr 1
  show List.filterMap
      (((fun i => if i ≠ 0 ∧ (addr + 4 * i) % 0x400 = 0
          then some (addr + 4 * i) else none) ∘ (fun x => wip + x)) ∘ Nat.succ)
      (List.range (n - wip - 1)) =
    (List.range (n - wip)).filterMap
      (fun i => if i ≠ 0 ∧ (addr + 4 * wip + 4 * i) % 0x400 = 0
        then some (addr + 4 * wip + 4 * i) else none)
  conv_rhs => rw [hm, List.range_succ_eq_map]
  rw [List.filterMap_cons]
  rw [if_neg (by simp)]
  show List.filterMap
      (((fun i => if i ≠ 0 ∧ (addr + 4 * i) % 0x400 = 0
          then some (addr + 4 * i) else none) ∘ (fun x => wip + x)) ∘ Nat.succ)
      (List.range (n - wip - 1)) =
    List.filterMap
      (fun i => if i ≠ 0 ∧ (addr + 4 * wip + 4 * i) % 0x400 = 0
        then some (addr + 4 * wip + 4 * i) else none)
      (List.map Nat.succ (List.range (n - wip - 1)))
  rw [List.filterMap_map]
  have hfun : ∀ a : Nat,
      ((fun i => if i ≠ 0 ∧ (addr + 4 * i) % 0x400 = 0
        then some (addr + 4 * i) else none) ∘ (fun x => wip + x) ∘ Nat.succ) a =
      ((fun i => if i ≠ 0 ∧ (addr + 4 * wip + 4 * i) % 0x400 = 0
        then some (addr + 4 * wip + 4 * i) else none) ∘ Nat.succ) a := by
    intro a
    simp only [Function.comp_apply]
    have h3 : addr + 4 * (wip + Nat.succ a) = addr + 4 * wip + 4 * Nat.succ a := by
      omega
    rw [h3]
    have h4 : (wip + Nat.succ a ≠ 0 ∧ (addr + 4 * wip + 4 * Nat.succ a) % 0x400 = 0) ↔
        (Nat.succ a ≠ 0 ∧ (addr + 4 * wip + 4 * Nat.succ a) % 0x400 = 0) := by
      constructor
      · rintro ⟨-, hx⟩; exact ⟨by omega, hx⟩
      · rintro ⟨-, hx⟩; exact ⟨by omega, hx⟩
    by_cases hc : Nat.succ a ≠ 0 ∧ (addr + 4 * wip + 4 * Nat.succ a) % 0x400 = 0
    · rw [if_pos (h4.mpr hc), if_pos hc]
    · rw [if_neg (fun hx => hc (h4.mp hx)), if_neg hc]
  exact filterMap_ext_fun _ _ _ hfun

theorem tarsOf_blockLoop :
    ∀ (fuel addr : Nat) (data : List Nat),
      data.length ≤ fuel → addr % 4 = 0 → data ≠ [] →
      tarsOf (blockLoop fuel addr data) =
        addr :: boundaryTars addr data.length := by
  intro fuel
  induction fuel with
  | zero =>
      intro addr data hle h4 hne
      exact absurd (by cases data with
        | nil => rfl
        | cons v vs => simp at hle) hne
  | succ f ih =>
      intro addr data hle h4 hne
      cases data with
      | nil => exact absurd rfl hne
      | cons v vs =>
          rw [blockLoop_cons, List.cons_append, tarsOf_cons_tar,
            tarsOf_drw_chunk, tarsOf_cons_rdbuff]
          have hw1 : 1 ≤ wordsInPage addr (v :: vs).length :=
            wordsInPage_pos addr _ h4 (by simp)
          have hwle : wordsInPage addr (v :: vs).length ≤ (v :: vs).length :=
            wordsInPage_le addr _
          have hwb := wordsInPage_bound addr (v :: vs).length
          by_cases hlast : wordsInPage addr (v :: vs).length = (v :: vs).length
          · rw [show (v :: vs).drop (wordsInPage addr (v :: vs).length) = [] from by
              rw [hlast, List.drop_length]]
            rw [blockLoop_nil]
            rw [boundaryTars_nil addr (v :: vs).length (by omega)]
            rfl
          · have hlt : wordsInPage addr (v :: vs).length < (v :: vs).length := by
              omega
            have hbd := wordsInPage_boundary addr (v :: vs).length h4 hlt
            rw [ih (addr + wordsInPage addr (v :: vs).length * 4)
              ((v :: vs).drop (wordsInPage addr (v :: vs).length))
              (by rw [List.length_drop]
                  simp only [List.length_cons] at hle hwle hw1 hlt ⊢
                  omega)
              (by omega)
              (by intro hd
                  have hlen := congrArg List.length hd
                  rw [List.length_drop] at hlen
                  simp only [List.length_cons, List.length_nil] at hlen hlt
                  omega)]
            rw [List.length_drop]
            have hmul : wordsInPage addr (v :: vs).length * 4 =
                4 * wordsInPage addr (v :: vs).length := by omega
            rw [hmul]
            rw [← boundaryTars_split addr (v :: vs).length
              (wordsInPage addr (v :: vs).length) hw1 hlt hbd]

theorem tarsOf_cons_csw (v : Nat) (l : List MemOp) :
    tarsOf (MemOp.csw v :: l) = tarsOf l := rfl

/-- C1: for every word-aligned start address and non-empty word list,
`swd_mem_write_block32` issues a sequence of operations whose
data-register writes land the `i`-th word exactly at `addr + 4*i` —
covering `addr .. addr + 4*count - 4`, each word exactly once and in
order, with no wrap-around — and whose observable effect equals writing
the words one at a time with `swd_mem_write32`; and it re-issues the TAR
register exactly at the start and at every crossing of the fixed 1 KiB
auto-increment boundary. -/
theorem swd_mem_write_block32_correct (addr : Nat) (data : List Nat)
    (h4 : addr % 4 = 0) (hne : data ≠ []) :
    ∃ ops, swd_mem_write_block32 addr data = some ops ∧
      (∀ t0, runAP t0 ops = seqWrites addr data) ∧
      (∀ t0, runAP t0 ops = runAP t0 (writeSeqOps addr data)) ∧
      (∀ t0, (runAP t0 ops).map Prod.fst =
        (List.range data.length).map (fun i => addr + 4 * i)) ∧
      tarsOf ops = addr :: boundaryTars addr data.length := by
  refine ⟨MemOp.csw (CSW_ADDRINC_ON ||| CSW_SIZE_32BIT ||| CSW_DEVICE_EN |||
      CSW_MASTER_DBG) :: blockLoop data.length addr data, ?_, ?_, ?_, ?_, ?_⟩
  · unfold swd_mem_write_block32
    rw [if_neg (by simp [List.isEmpty_iff, hne]), if_neg (by simp [h4])]
  · intro t0
    have hcsw : runAP t0 (MemOp.csw (CSW_ADDRINC_ON ||| CSW_SIZE_32BIT |||
        CSW_DEVICE_EN ||| CSW_MASTER_DBG) :: blockLoop data.length addr data) =
        runAP t0 (blockLoop data.length addr data) := rfl
    rw [hcsw, runAP_blockLoop data.length addr data t0 le_rfl h4]
  · intro t0
    have hcsw : runAP t0 (MemOp.csw (CSW_ADDRINC_ON ||| CSW_SIZE_32BIT |||
        CSW_DEVICE_EN ||| CSW_MASTER_DBG) :: blockLoop data.length addr data) =
        runAP t0 (blockLoop data.length addr data) := rfl
    rw [hcsw, runAP_blockLoop data.length addr data t0 le_rfl h4,
      runAP_writeSeqOps]
  · intro t0
    have hcsw : runAP t0 (MemOp.csw (CSW_ADDRINC_ON ||| CSW_SIZE_32BIT |||
        CSW_DEVICE_EN ||| CSW_MASTER_DBG) :: blockLoop data.length addr data) =
        runAP t0 (blockLoop data.length addr data) := rfl
    rw [hcsw, runAP_blockLoop data.length addr data t0 le_rfl h4, seqWrites_fst]
  · rw [tarsOf_cons_csw, tarsOf_blockLoop data.length addr data le_rfl h4 hne]

/-- Witness for C1 at the claim's concrete hazard scenario: 512 words
written starting 16 words (64 bytes) before the 1 KiB boundary at 1024,
i.e. at address 960.  The words land at `960 + 4*i` for `i < 512`
(bytes `start+0 .. start+2047`), identically to 512 individual
`swd_mem_write32` calls, with no wrapped-around address. -/
theorem swd_mem_write_block32_correct_witness :
    (960 : Nat) % 4 = 0 ∧ List.replicate 512 (0xA5A5A5A5 : Nat) ≠ [] ∧
    (∃ ops, swd_mem_write_block32 960 (List.replicate 512 0xA5A5A5A5) = some ops ∧
      (∀ t0, runAP t0 ops = seqWrites 960 (List.replicate 512 0xA5A5A5A5)) ∧
      (∀ t0, runAP t0 ops =
        runAP t0 (writeSeqOps 960 (List.replicate 512 0xA5A5A5A5))) ∧
      (∀ t0, (runAP t0 ops).map Prod.fst =
        (List.range (List.replicate 512 (0xA5A5A5A5 : Nat)).length).map
          (fun i => 960 + 4 * i)) ∧
      tarsOf ops =
        960 :: boundaryTars 960 (List.replicate 512 (0xA5A5A5A5 : Nat)).length) :=
  ⟨by decide,
   by
     intro h
     have hl := congrArg List.length h
     rw [List.length_replicate, List.length_nil] at hl
     exact absurd hl (by decide),
   swd_mem_write_block32_correct 960 (List.replicate 512 0xA5A5A5A5)
     (by decide)
     (by
       intro h
       have hl := congrArg List.length h
       rw [List.length_replicate, List.length_nil] at hl
       exact absurd hl (by decide))⟩

/-! ## Memory access layer: buffered reads/writes (swd_mem.c)

`swd_mem_read_buffer` / `swd_mem_write_buffer` handle an unaligned start
address by splicing the first partial word (read-modify-write on the
write side), then proceed word-at-a-time, and finally splice a trailing
partial word.  Target memory is modelled as a word-addressed map
`Mem := Nat → Nat` (indexed by the word-aligned address); the byte order
inside a word is little-endian, exactly as the C code's `memcpy` between
`uint32_t` and byte buffers on a little-endian target. -/

def Mem : Type := Nat → Nat

def mem_read32 (m : Mem) (a : Nat) : Nat := m a

def mem_write32 (m : Mem) (a v : Nat) : Mem := fun x => if x = a then v else m x

/-- Byte `i` (little-endian) of the word `w`. -/
def byteOfWord (w i : Nat) : Nat := w / 256 ^ i % 256

/-- Replace byte `i` of `w` by `b` (the effect of `word_bytes[i] = b`). -/
def setByte (w i b : Nat) : Nat :=
  w % 256 ^ i + b * 256 ^ i + w / 256 ^ (i + 1) * 256 ^ (i + 1)

/-- `memcpy(&word_bytes[off], buffer, k)`: splice the bytes `bs` into
`w` starting at byte offset `off`. -/
def spliceBytes (w off : Nat) : List Nat → Nat
  | [] => w
  | b :: bs => spliceBytes (setByte w off b) (off + 1) bs

/-- `memcpy(buffer, &word_bytes[off], k)`: extract `k` bytes of `w`
starting at byte offset `off`. -/
def takeBytes (w off k : Nat) : List Nat :=
  (List.range k).map (fun i => byteOfWord w (off + i))

/-- `memcpy(&word, buffer, 4)`: assemble a word from four bytes,
little-endian. -/
def bytesToWord (l : List Nat) : Nat := l.foldr (fun b acc => b + 256 * acc) 0

/-- The byte stored at byte address `ba` in memory `m`. -/
def byteOfMem (m : Mem) (ba : Nat) : Nat := byteOfWord (m (ba - ba % 4)) (ba % 4)

theorem byteOfWord_setByte_same (w i b : Nat) (hb : b < 256) (hi : i < 4) :
    byteOfWord (setByte w i b) i = b := by
  unfold byteOfWord setByte
  interval_cases i <;> norm_num <;> omega

theorem byteOfWord_setByte_ne (w i j b : Nat) (hb : b < 256) (hi : i < 4)
    (hj : j < 4) (hne : i ≠ j) :
    byteOfWord (setByte w i b) j = byteOfWord w j := by
  unfold byteOfWord setByte
  interval_cases i <;> interval_cases j <;> norm_num <;> omega

theorem byteOfWord_bytesToWord (b0 b1 b2 b3 : Nat) (h0 : b0 < 256)
    (h1 : b1 < 256) (h2 : b2 < 256) (h3 : b3 < 256) (i : Nat) (hi : i < 4) :
    byteOfWord (bytesToWord [b0, b1, b2, b3]) i = [b0, b1, b2, b3].getD i 0 := by
  unfold byteOfWord bytesToWord
  simp only [List.foldr]
  interval_cases i <;> simp [List.getD] <;> omega

theorem spliceBytes_spec (bs : List Nat) :
    ∀ w off, off + bs.length ≤ 4 → (∀ b ∈ bs, b < 256) →
      ∀ j, j < 4 → byteOfWord (spliceBytes w off bs) j =
        if off ≤ j ∧ j < off + bs.length then bs.getD (j - off) 0
        else byteOfWord w j := by
  induction bs with
  | nil =>
      intro w off _ _ j hj
      rw [if_neg (by simp)]
      rfl
  | cons b bs ih =>
      intro w off hlen hb j hj
      simp only [List.length_cons] at hlen
      have hrec := ih (setByte w off b) (off + 1)
        (by omega) (fun x hx => hb x (by simp [hx])) j hj
      show byteOfWord (spliceBytes (setByte w off b) (off + 1) bs) j = _
      rw [hrec]
      by_cases hup : off + 1 ≤ j ∧ j < off + 1 + bs.length
      · rw [if_pos hup, if_pos (by simp only [List.length_cons]; omega)]
        have hd : j - off = (j - (off + 1)) + 1 := by omega
        rw [hd]
        rfl
      · rw [if_neg hup]
        by_cases hoff : j = off
        · subst hoff
          rw [byteOfWord_setByte_same w j b (hb b (by simp)) (by omega)]
          rw [if_pos (by simp only [List.length_cons]; omega)]
          simp
        · rw [byteOfWord_setByte_ne w off j b (hb b (by simp)) (by omega) hj
            (fun hx => hoff hx.symm)]
          rw [if_neg (by simp only [List.length_cons]; omega)]

theorem map_getD_range (l : List Nat) :
    (List.range l.length).map (fun i => l.getD i 0) = l := by
  induction l with
  | nil => rfl
  | cons a l ih =>
      have hstep : (List.range (a :: l).length).map (fun i => (a :: l).getD i 0) =
          a :: (List.range l.length).map (fun i => l.getD i 0) := by
        rw [List.length_cons, List.range_succ_eq_map]
        simp [List.map_map, Function.comp, List.getD_cons_succ]
      rw [hstep, ih]

/-- `swd_mem_read_buffer`, aligned tail: word-at-a-time reads while at
least 4 bytes remain, then the trailing partial-word splice. -/
def readRest (m : Mem) (addr : Nat) (size : Nat) : List Nat :=
  if 4 ≤ size then
    takeBytes (mem_read32 m addr) 0 4 ++ readRest m (addr + 4) (size - 4)
  else if size = 0 then []
  else takeBytes (mem_read32 m addr) 0 size
termination_by size
decreasing_by omega

def swd_mem_read_buffer (m : Mem) (addr size : Nat) : Option (List Nat) :=
  if size = 0 then none
  else some (
    if addr % 4 ≠ 0 then
      let aligned := addr - addr % 4
      let off := addr % 4
      let w := mem_read32 m aligned
      let btc := min (4 - off) size
      takeBytes w off btc ++ readRest m (addr + btc) (size - btc)
    else readRest m addr size)

/-- `swd_mem_write_buffer`, aligned tail: word-at-a-time writes while at
least 4 bytes remain, then the trailing read-modify-write splice. -/
def writeRest (m : Mem) (addr : Nat) (buf : List Nat) : Mem :=
  if 4 ≤ buf.length then
    writeRest (mem_write32 m addr (bytesToWord (buf.take 4))) (addr + 4)
      (buf.drop 4)
  else if buf.length = 0 then m
  else mem_write32 m addr (spliceBytes (mem_read32 m addr) 0 buf)
termination_by buf.length
decreasing_by
  rw [List.length_drop]
  omega

def swd_mem_write_buffer (m : Mem) (addr : Nat) (buf : List Nat) : Option Mem :=
  if buf.length = 0 then none
  else some (
    if addr % 4 ≠ 0 then
      let aligned := addr - addr % 4
      let off := addr % 4
      let btc := min (4 - off) buf.length
      let w := spliceBytes (mem_read32 m aligned) off (buf.take btc)
      writeRest (mem_write32 m aligned w) (addr + btc) (buf.drop btc)
    else writeRest m addr buf)

theorem readRest_zero (m : Mem) (addr : Nat) : readRest m addr 0 = [] := by
  rw [readRest]
  norm_num

theorem getD_drop (l : List Nat) (n i : Nat) :
    (l.drop n).getD i 0 = l.getD (n + i) 0 := by
  rw [List.getD_eq_getElem?_getD, List.getD_eq_getElem?_getD, List.getElem?_drop]

theorem readRest_spec :
    ∀ (n size : Nat), size ≤ n → ∀ (m : Mem) (addr : Nat), addr % 4 = 0 →
      readRest m addr size =
        (List.range size).map (fun i => byteOfMem m (addr + i)) := by
  intro n
  induction n with
  | zero =>
      intro size hle m addr h4
      have h0 : size = 0 := by omega
      subst h0
      rw [readRest_zero]
      rfl
  | succ k ih =>
      intro size hle m addr h4
      rw [readRest]
      by_cases h : 4 ≤ size
      · rw [if_pos h]
        rw [ih (size - 4) (by omega) m (addr + 4) (by omega)]
        have hs : size = 4 + (size - 4) := by omega
        conv_rhs => rw [hs, List.range_add]
        rw [List.map_append, List.map_map]
        congr 1
        · unfold takeBytes mem_read32
          apply List.map_congr_left
          intro i hi
          rw [List.mem_range] at hi
          unfold byteOfMem
          have h2 : addr + i - (addr + i) % 4 = addr := by omega
          have h1 : (addr + i) % 4 = i := by omega
          rw [h2, h1]
          have h3 : 0 + i = i := by omega
          rw [h3]
        · apply List.map_congr_left
          intro i _
          simp only [Function.comp_apply]
          have h1 : addr + 4 + i = addr + (4 + i) := by omega
          rw [h1]
      · rw [if_neg h]
        by_cases h0 : size = 0
        · rw [if_pos h0]
          subst h0
          rfl
        · rw [if_neg h0]
          unfold takeBytes mem_read32
          apply List.map_congr_left
          intro i hi
          rw [List.mem_range] at hi
          unfold byteOfMem
          have h2 : addr + i - (addr + i) % 4 = addr := by omega
          have h1 : (addr + i) % 4 = i := by omega
          rw [h2, h1]
          have h3 : 0 + i = i := by omega
          rw [h3]

theorem swd_mem_read_buffer_spec (m : Mem) (addr size : Nat) (hs : size ≠ 0) :
    swd_mem_read_buffer m addr size =
      some ((List.range size).map (fun i => byteOfMem m (addr + i))) := by
  unfold swd_mem_read_buffer
  rw [if_neg hs]
  by_cases hal : addr % 4 ≠ 0
  · rw [if_pos hal]
    dsimp only
    congr 1
    by_cases hbtc : size ≤ 4 - addr % 4
    · rw [Nat.min_eq_right hbtc]
      have hz : size - size = 0 := by omega
      rw [hz, readRest_zero, List.append_nil]
      unfold takeBytes mem_read32
      apply List.map_congr_left
      intro i hi
      rw [List.mem_range] at hi
      unfold byteOfMem
      have hoff : addr % 4 < 4 := by omega
      have h2 : addr + i - (addr + i) % 4 = addr - addr % 4 := by omega
      have h1 : (addr + i) % 4 = addr % 4 + i := by omega
      rw [h2, h1]
    · have hmin : min (4 - addr % 4) size = 4 - addr % 4 :=
        Nat.min_eq_left (by omega)
      rw [hmin]
      rw [readRest_spec (size - (4 - addr % 4)) (size - (4 - addr % 4)) le_rfl m
        (addr + (4 - addr % 4)) (by omega)]
      have hs2 : size = (4 - addr % 4) + (size - (4 - addr % 4)) := by omega
      conv_rhs => rw [hs2, List.range_add]
      rw [List.map_append, List.map_map]
      congr 1
      · unfold takeBytes mem_read32
        apply List.map_congr_left
        intro i hi
        rw [List.mem_range] at hi
        unfold byteOfMem
        have h2 : addr + i - (addr + i) % 4 = addr - addr % 4 := by omega
        have h1 : (addr + i) % 4 = addr % 4 + i := by omega
        rw [h2, h1]
      · apply List.map_congr_left
        intro i _
        simp only [Function.comp_apply]
        have h1 : addr + (4 - addr % 4) + i = addr + ((4 - addr % 4) + i) := by
          omega
        rw [h1]
  · rw [if_neg hal]
    congr 1
    exact readRest_spec size size le_rfl m addr (by omega)

theorem writeRest_nil (m : Mem) (a : Nat) : writeRest m a [] = m := by
  rw [writeRest]
  norm_num

theorem getD_take (l : List Nat) (k i : Nat) (h : i < k) :
    (l.take k).getD i 0 = l.getD i 0 := by
  rw [List.getD_eq_getElem?_getD, List.getD_eq_getElem?_getD,
    List.getElem?_take, if_pos h]

theorem writeRest_spec :
    ∀ (n : Nat) (buf : List Nat), buf.length ≤ n → ∀ (m : Mem) (addr : Nat),
      addr % 4 = 0 → (∀ b ∈ buf, b < 256) →
      ∀ ba, byteOfMem (writeRest m addr buf) ba =
        (if addr ≤ ba ∧ ba < addr + buf.length then buf.getD (ba - addr) 0
         else byteOfMem m ba) := by
  intro n
  induction n with
  | zero =>
      intro buf hle m addr h4 hb ba
      have hnil : buf = [] := by
        cases buf with
        | nil => rfl
        | cons x xs => simp at hle
      subst hnil
      rw [writeRest]
      norm_num
      rw [if_neg (by omega)]
  | succ k ih =>
      intro buf hle m addr h4 hb ba
      rw [writeRest]
      by_cases h4le : 4 ≤ buf.length
      · rw [if_pos h4le]
        have hlen4 : (buf.drop 4).length ≤ k := by
          rw [List.length_drop]
          omega
        rw [ih (buf.drop 4) hlen4 _ (addr + 4) (by omega)
          (fun b hb' => hb b (List.mem_of_mem_drop hb')) ba]
        rw [List.length_drop]
        by_cases hup : addr + 4 ≤ ba ∧ ba < addr + 4 + (buf.length - 4)
        · rw [if_pos hup, if_pos (by omega)]
          rw [getD_drop]
          have he : 4 + (ba - (addr + 4)) = ba - addr := by omega
          rw [he]
        · rw [if_neg hup]
          by_cases hin : addr ≤ ba ∧ ba < addr + 4
          · rw [if_pos (by omega)]
            unfold byteOfMem mem_write32
            have hba4 : ba - ba % 4 = addr := by omega
            rw [hba4, if_pos rfl]
            obtain ⟨b0, t0, h0⟩ : ∃ b0 t0, buf = b0 :: t0 := by
              cases buf with
              | nil => simp at h4le
              | cons x xs => exact ⟨x, xs, rfl⟩
            obtain ⟨b1, t1, h1⟩ : ∃ b1 t1, t0 = b1 :: t1 := by
              cases t0 with
              | nil => subst h0; simp at h4le
              | cons x xs => exact ⟨x, xs, rfl⟩
            obtain ⟨b2, t2, h2⟩ : ∃ b2 t2, t1 = b2 :: t2 := by
              cases t1 with
              | nil => subst h0; subst h1; simp at h4le
              | cons x xs => exact ⟨x, xs, rfl⟩
            obtain ⟨b3, t3, h3⟩ : ∃ b3 t3, t2 = b3 :: t3 := by
              cases t2 with
              | nil => subst h0; subst h1; subst h2; simp at h4le
              | cons x xs => exact ⟨x, xs, rfl⟩
            subst h0 h1 h2 h3
            have htake : (b0 :: b1 :: b2 :: b3 :: t3).take 4 = [b0, b1, b2, b3] :=
              rfl
            rw [htake]
            have hmem : ∀ x ∈ [b0, b1, b2, b3], x < 256 := by
              intro x hx
              apply hb
              simp at hx
              rcases hx with h | h | h | h <;> simp [h]
            rw [byteOfWord_bytesToWord b0 b1 b2 b3
              (hmem b0 (by simp)) (hmem b1 (by simp)) (hmem b2 (by simp))
              (hmem b3 (by simp)) (ba % 4) (by omega)]
            have hidx : ba % 4 = ba - addr := by omega
            rw [hidx]
            have hlt : ba - addr < 4 := by omega
            interval_cases h : (ba - addr) <;> rfl
          · rw [if_neg (by omega)]
            unfold byteOfMem mem_write32
            have hne : ¬ (ba - ba % 4 = addr) := by omega
            rw [if_neg hne]
      · rw [if_neg h4le]
        by_cases h0 : buf.length = 0
        · rw [if_pos h0]
          rw [if_neg (by omega)]
        · rw [if_neg h0]
          unfold byteOfMem mem_write32 mem_read32
          by_cases hword : ba - ba % 4 = addr
          · rw [if_pos hword]
            rw [spliceBytes_spec buf (m addr) 0 (by omega) hb (ba % 4) (by omega)]
            by_cases hin : 0 ≤ ba % 4 ∧ ba % 4 < 0 + buf.length
            · rw [if_pos hin, if_pos (by omega)]
              have hidx : ba % 4 - 0 = ba - addr := by omega
              rw [hidx]
            · rw [if_neg hin, if_neg (by omega)]
              rw [hword]
          · rw [if_neg hword, if_neg (by omega)]

/-- `swd_mem_write_buffer` byte-level specification: the resulting
memory holds the buffer's bytes at `addr .. addr + len - 1` and is
byte-for-byte unchanged everywhere else. -/
theorem swd_mem_write_buffer_spec (m : Mem) (addr : Nat) (buf : List Nat)
    (hne : buf.length ≠ 0) (hb : ∀ b ∈ buf, b < 256) :
    ∃ m', swd_mem_write_buffer m addr buf = some m' ∧
      ∀ ba, byteOfMem m' ba =
        (if addr ≤ ba ∧ ba < addr + buf.length then buf.getD (ba - addr) 0
         else byteOfMem m ba) := by
  unfold swd_mem_write_buffer
  rw [if_neg hne]
  by_cases hal : addr % 4 ≠ 0
  · rw [if_pos hal]
    dsimp only
    refine ⟨_, rfl, ?_⟩
    intro ba
    have hoff : addr % 4 < 4 := by omega
    by_cases hmin : 4 - addr % 4 ≤ buf.length
    · rw [Nat.min_eq_left hmin]
      have hsplice := spliceBytes_spec (buf.take (4 - addr % 4))
        (mem_read32 m (addr - addr % 4)) (addr % 4)
        (by rw [List.length_take]; omega)
        (fun b hb' => hb b (List.mem_of_mem_take hb'))
      rw [writeRest_spec (buf.drop (4 - addr % 4)).length _ le_rfl
        _ (addr + (4 - addr % 4)) (by omega)
        (fun b hb' => hb b (List.mem_of_mem_drop hb')) ba]
      rw [List.length_drop]
      by_cases hup : addr + (4 - addr % 4) ≤ ba ∧
          ba < addr + (4 - addr % 4) + (buf.length - (4 - addr % 4))
      · rw [if_pos hup, if_pos (by omega)]
        rw [getD_drop]
        have he : 4 - addr % 4 + (ba - (addr + (4 - addr % 4))) = ba - addr := by
          omega
        rw [he]
      · rw [if_neg hup]
        unfold byteOfMem mem_write32
        by_cases hword : ba - ba % 4 = addr - addr % 4
        · rw [if_pos hword]
          rw [hsplice (ba % 4) (by omega)]
          rw [List.length_take]
          by_cases hin : addr % 4 ≤ ba % 4 ∧
              ba % 4 < addr % 4 + min (4 - addr % 4) buf.length
          · rw [if_pos hin, if_pos (by omega)]
            rw [getD_take _ _ _ (by omega)]
            have hidx : ba % 4 - addr % 4 = ba - addr := by omega
            rw [hidx]
          · rw [if_neg hin, if_neg (by omega)]
            unfold mem_read32
            rw [← hword]
        · rw [if_neg hword, if_neg (by omega)]
    · have hminr : min (4 - addr % 4) buf.length = buf.length :=
        Nat.min_eq_right (by omega)
      rw [hminr, List.drop_length, writeRest_nil, List.take_length]
      unfold byteOfMem mem_write32
      by_cases hword : ba - ba % 4 = addr - addr % 4
      · rw [if_pos hword]
        rw [spliceBytes_spec buf (mem_read32 m (addr - addr % 4)) (addr % 4)
          (by omega) hb (ba % 4) (by omega)]
        by_cases hin : addr % 4 ≤ ba % 4 ∧ ba % 4 < addr % 4 + buf.length
        · rw [if_pos hin, if_pos (by omega)]
          have hidx : ba % 4 - addr % 4 = ba - addr := by omega
          rw [hidx]
        · rw [if_neg hin, if_neg (by omega)]
          unfold mem_read32
          rw [← hword]
      · rw [if_neg hword, if_neg (by omega)]
  · rw [if_neg hal]
    refine ⟨_, rfl, ?_⟩
    intro ba
    exact writeRest_spec buf.length buf le_rfl m addr (by omega) hb ba

/-- C7: writing `N` bytes (`0 < N < 4`) at an address not divisible by 4
via `swd_mem_write_buffer` and reading `N` bytes back from the same
address via `swd_mem_read_buffer` returns exactly the written bytes,
and every byte outside the written range — in particular the
neighboring bytes of the containing 32-bit word(s) — is preserved
bit-for-bit (the write is a read-modify-write splice). -/
theorem swd_mem_unaligned_roundtrip (m : Mem) (addr : Nat) (buf : List Nat)
    (hun : addr % 4 ≠ 0) (hlen0 : 0 < buf.length) (hlen4 : buf.length < 4)
    (hb : ∀ b ∈ buf, b < 256) :
    ∃ m', swd_mem_write_buffer m addr buf = some m' ∧
      swd_mem_read_buffer m' addr buf.length = some buf ∧
      ∀ ba, ba < addr ∨ addr + buf.length ≤ ba →
        byteOfMem m' ba = byteOfMem m ba := by
  obtain ⟨m', hw, hspec⟩ := swd_mem_write_buffer_spec m addr buf (by omega) hb
  refine ⟨m', hw, ?_, ?_⟩
  · rw [swd_mem_read_buffer_spec m' addr buf.length (by omega)]
    congr 1
    have hmap : ∀ i ∈ List.range buf.length,
        byteOfMem m' (addr + i) = buf.getD i 0 := by
      intro i hi
      rw [List.mem_range] at hi
      rw [hspec (addr + i), if_pos (by omega)]
      congr 1
      omega
    rw [List.map_congr_left hmap]
    exact map_getD_range buf
  · intro ba hba
    rw [hspec ba, if_neg (by omega)]

/-- Witness for C7: two bytes written at the unaligned address 5 into a
memory holding `0x11223344` in every word; the readback returns the
bytes and all other bytes are untouched. -/
theorem swd_mem_unaligned_roundtrip_witness :
    (5 : Nat) % 4 ≠ 0 ∧ 0 < ([0xAB, 0xCD] : List Nat).length ∧
    ([0xAB, 0xCD] : List Nat).length < 4 ∧
    (∃ m', swd_mem_write_buffer (fun _ => 0x11223344) 5 [0xAB, 0xCD] = some m' ∧
      swd_mem_read_buffer m' 5 ([0xAB, 0xCD] : List Nat).length =
        some [0xAB, 0xCD] ∧
      ∀ ba, ba < 5 ∨ 5 + ([0xAB, 0xCD] : List Nat).length ≤ ba →
        byteOfMem m' ba = byteOfMem (fun _ => 0x11223344) ba) :=
  ⟨by decide, by decide, by decide,
   swd_mem_unaligned_roundtrip (fun _ => 0x11223344) 5 [0xAB, 0xCD]
     (by decide) (by decide) (by decide) (by decide)⟩

/-! ## Flash engine: CTRL-AP mass erase (swd_flash.c, swd_flash_disable_approtect)

The function is a straight-line sequence of register-layer calls.  Each
interaction with the target (a DP/AP register access, or a compound
sub-procedure such as `swd_connect`) is modelled as one oracle event:
`oracle i = some v` means the `i`-th interaction succeeded (returning
`v` where a value is read), `none` means it failed.  The operations
issued are recorded in a trace, so "writes the ERASEALL bit" is
`ROp.apWriteOp 0x04 1 ∈ trace`.  The `ERASEALLSTATUS` poll loop is
bounded in C by elapsed time; `pollFuel` bounds its iterations here. -/

inductive ROp where
  | isConn
  | dpWriteOp (addr v : Nat)
  | dpReadOp (addr : Nat)
  | apWriteOp (addr v : Nat)
  | apReadOp (addr : Nat)
  | disconnectOp
  | connectOp
  | memInitOp
  | flashInitOp
  | memReadOp (a : Nat)
deriving Repr, DecidableEq

structure CtrlSt where
  idx : Nat
  trace : List ROp
deriving Repr, DecidableEq

def stepOp (oracle : Nat → Option Nat) (s : CtrlSt) (op : ROp) :
    Option Nat × CtrlSt :=
  (oracle s.idx, ⟨s.idx + 1, s.trace ++ [op]⟩)

/-- `swd_is_connected`: false when the IDCODE read fails or the value is
implausible. -/
def connPlausible : Option Nat → Prop
  | none => False
  | some v => v ≠ 0 ∧ v ≠ 0xFFFFFFFF

instance : DecidablePred connPlausible := by
  intro o
  cases o <;> simp [connPlausible] <;> infer_instance

/-- The `ERASEALLSTATUS` poll: read CTRL-AP register 0x08; on a read
failure re-select AP#1 bank 0 and retry; `0` means ready. -/
def pollEraseAll (oracle : Nat → Option Nat) : Nat → CtrlSt → Int × CtrlSt
  | 0, s => (ESP_ERR_TIMEOUT, s)
  | fuel + 1, s =>
    let p := stepOp oracle s (ROp.apReadOp 0x08)
    match p.1 with
    | none =>
      let q := stepOp oracle p.2 (ROp.dpWriteOp 0x08 (1 <<< 24))
      pollEraseAll oracle fuel q.2
    | some v => if v = 0 then (ESP_OK, p.2) else pollEraseAll oracle fuel p.2

def swd_flash_disable_approtect (oracle : Nat → Option Nat) (pollFuel : Nat) :
    Int × CtrlSt :=
  let s0 : CtrlSt := ⟨0, []⟩
  let p1 := stepOp oracle s0 ROp.isConn
  if ¬ connPlausible p1.1 then (ESP_ERR_INVALID_STATE, p1.2)
  else
    let p2 := stepOp oracle p1.2 (ROp.dpWriteOp 0x00 0x1E)
    let p3 := stepOp oracle p2.2 (ROp.dpReadOp 0x00)
    let idcode := (p3.1).getD 0
    if idcode = 0 ∨ idcode = 0xFFFFFFFF then (ESP_ERR_INVALID_STATE, p3.2)
    else
      let p4 := stepOp oracle p3.2 (ROp.dpWriteOp 0x04 0x50000000)
      if p4.1.isNone then (ESP_FAIL, p4.2)
      else
        let p5 := stepOp oracle p4.2
          (ROp.dpWriteOp 0x08 ((1 <<< 24) ||| (0xF <<< 4)))
        if p5.1.isNone then (ESP_FAIL, p5.2)
        else
          let p6 := stepOp oracle p5.2 (ROp.apReadOp 0x0C)
          match p6.1 with
          | none => (ESP_FAIL, p6.2)
          | some idr =>
            if idr &&& 0x0FFFFFFF ≠ 0x02880000 then (ESP_ERR_NOT_FOUND, p6.2)
            else
              let p7 := stepOp oracle p6.2 (ROp.dpWriteOp 0x08 (1 <<< 24))
              if p7.1.isNone then (ESP_FAIL, p7.2)
              else
                let p8 := stepOp oracle p7.2 (ROp.apReadOp 0x0C)
                let p9 := stepOp oracle p8.2 (ROp.apWriteOp 0x04 1)
                if p9.1.isNone then (ESP_FAIL, p9.2)
                else
                  let p10 := stepOp oracle p9.2 (ROp.dpReadOp 0x0C)
                  let pp := pollEraseAll oracle pollFuel p10.2
                  if pp.1 ≠ ESP_OK then (pp.1, pp.2)
                  else
                    let q1 := stepOp oracle pp.2 (ROp.apWriteOp 0x00 1)
                    let q2 := stepOp oracle q1.2 (ROp.dpReadOp 0x0C)
                    let q3 := stepOp oracle q2.2 (ROp.apWriteOp 0x00 0)
                    let q4 := stepOp oracle q3.2 (ROp.dpReadOp 0x0C)
                    let q5 := stepOp oracle q4.2 (ROp.apWriteOp 0x04 0)
                    let q6 := stepOp oracle q5.2 (ROp.dpReadOp 0x0C)
                    let q7 := stepOp oracle q6.2 (ROp.dpWriteOp 0x08 0)
                    let q8 := stepOp oracle q7.2 ROp.disconnectOp
                    let q9 := stepOp oracle q8.2 ROp.connectOp
                    if q9.1.isNone then (ESP_FAIL, q9.2)
                    else
                      let q10 := stepOp oracle q9.2 ROp.memInitOp
                      let q11 := stepOp oracle q10.2 ROp.flashInitOp
                      let q12 := stepOp oracle q11.2 (ROp.memReadOp 0)
                      let q13 := stepOp oracle q12.2 (ROp.memReadOp 0x10001208)
                      (ESP_OK, q13.2)

/-- C4: when the CTRL-AP identification register read (the 6th
interaction, after connection check, sticky-error clear, IDCODE read,
debug power-up request and AP select) returns a value whose
version-masked form is not the Nordic vendor value `0x02880000`,
`swd_flash_disable_approtect` returns the distinct
`ESP_ERR_NOT_FOUND` ("unexpected device") error and never writes the
ERASEALL erase-trigger bit. -/
theorem swd_flash_disable_approtect_idr_gate (oracle : Nat → Option Nat)
    (pollFuel : Nat) (c id w3 w4 idr : Nat)
    (h0 : oracle 0 = some c) (hc0 : c ≠ 0) (hc1 : c ≠ 0xFFFFFFFF)
    (h2 : oracle 2 = some id) (hid0 : id ≠ 0) (hid1 : id ≠ 0xFFFFFFFF)
    (h3 : oracle 3 = some w3) (h4 : oracle 4 = some w4)
    (h5 : oracle 5 = some idr) (hidr : idr &&& 0x0FFFFFFF ≠ 0x02880000) :
    (swd_flash_disable_approtect oracle pollFuel).1 = ESP_ERR_NOT_FOUND ∧
      (swd_flash_disable_approtect oracle pollFuel).2.trace =
        [ROp.isConn, ROp.dpWriteOp 0x00 0x1E, ROp.dpReadOp 0x00,
         ROp.dpWriteOp 0x04 0x50000000,
         ROp.dpWriteOp 0x08 ((1 <<< 24) ||| (0xF <<< 4)), ROp.apReadOp 0x0C] ∧
      ROp.apWriteOp 0x04 1 ∉ (swd_flash_disable_approtect oracle pollFuel).2.trace := by
  have hrun : swd_flash_disable_approtect oracle pollFuel =
      (ESP_ERR_NOT_FOUND,
       ⟨6, [ROp.isConn, ROp.dpWriteOp 0x00 0x1E, ROp.dpReadOp 0x00,
            ROp.dpWriteOp 0x04 0x50000000,
            ROp.dpWriteOp 0x08 ((1 <<< 24) ||| (0xF <<< 4)),
            ROp.apReadOp 0x0C]⟩) := by
    unfold swd_flash_disable_approtect
    simp only [stepOp, h0, h2, h3, h4, h5]
    rw [if_neg (by simp [connPlausible, hc0, hc1])]
    rw [if_neg (by simp [Option.getD, hid0, hid1])]
    rw [if_neg (by simp)]
    rw [if_neg (by simp)]
    rw [if_pos hidr]
    rfl
  rw [hrun]
  refine ⟨rfl, rfl, by simp⟩

/-- Witness for C4: a concrete oracle whose IDR read yields
`0x0BAD0000`, which fails the vendor check. -/
theorem swd_flash_disable_approtect_idr_gate_witness :
    (swd_flash_disable_approtect
        (fun i => if i = 5 then some 0x0BAD0000 else some 0x2BA01477) 150).1 =
      ESP_ERR_NOT_FOUND ∧
    (swd_flash_disable_approtect
        (fun i => if i = 5 then some 0x0BAD0000 else some 0x2BA01477) 150).2.trace =
      [ROp.isConn, ROp.dpWriteOp 0x00 0x1E, ROp.dpReadOp 0x00,
       ROp.dpWriteOp 0x04 0x50000000,
       ROp.dpWriteOp 0x08 ((1 <<< 24) ||| (0xF <<< 4)), ROp.apReadOp 0x0C] ∧
    ROp.apWriteOp 0x04 1 ∉
      (swd_flash_disable_approtect
        (fun i => if i = 5 then some 0x0BAD0000 else some 0x2BA01477) 150).2.trace :=
  swd_flash_disable_approtect_idr_gate
    (fun i => if i = 5 then some 0x0BAD0000 else some 0x2BA01477) 150
    0x2BA01477 0x2BA01477 0x2BA01477 0x2BA01477 0x0BAD0000
    (by decide) (by decide) (by decide) (by decide) (by decide) (by decide)
    (by decide) (by decide) (by decide) (by decide)

/-! ## Flash engine: page erase (swd_flash.c, swd_flash_erase_page)

Each `swd_mem_read32`/`swd_mem_write32` the function performs is one
oracle event (`some v` = success, `none` = failure).  The model state
tracks the target's NVMC CONFIG mode (updated by each *successful*
write to `NVMC_CONFIG`) and the list of attempted writes
`(address, value)`, so "attempts to restore read-only mode" is an
attempted write `(NVMC_CONFIG, NVMC_CONFIG_REN)` in the trace.
Millisecond-bounded polling loops are modelled by their iteration
counts (500 iterations of `wait_nvmc_ready(500)` at 1 ms, and the
31 iterations of the 90..400 ms erase-completion poll at 10 ms). -/

def NVMC_CONFIG : Nat := 0x4001E504

def NVMC_ERASEPAGE : Nat := 0x4001E508

def NVMC_CONFIG_REN : Nat := 0x00

def NVMC_CONFIG_WEN : Nat := 0x01

def NVMC_CONFIG_EEN : Nat := 0x02

def NRF52_FLASH_SIZE : Nat := 1024 * 1024

def NRF52_FLASH_PAGE_SIZE : Nat := 4096

structure ESt where
  idx : Nat
  cfg : Nat
  wtrace : List (Nat × Nat)
deriving Repr, DecidableEq

def mrd (oracle : Nat → Option Nat) (s : ESt) : Option Nat × ESt :=
  (oracle s.idx, { s with idx := s.idx + 1 })

def mwr (oracle : Nat → Option Nat) (s : ESt) (addr v : Nat) : Bool × ESt :=
  match oracle s.idx with
  | none => (false, { s with idx := s.idx + 1, wtrace := s.wtrace ++ [(addr, v)] })
  | some _ => (true,
      { idx := s.idx + 1,
        cfg := if addr = NVMC_CONFIG then v else s.cfg,
        wtrace := s.wtrace ++ [(addr, v)] })

/-- `wait_nvmc_ready`: poll `NVMC_READY` until the ready bit is seen in
two consecutive identical reads; a read failure propagates the error. -/
def wait_nvmc_ready (oracle : Nat → Option Nat) :
    Nat → ESt → Nat → Nat → Int × ESt
  | 0, s, _, _ => (ESP_ERR_TIMEOUT, s)
  | fuel + 1, s, lastReady, stable =>
    let p := mrd oracle s
    match p.1 with
    | none => (ESP_FAIL, p.2)
    | some ready =>
      if ready &&& 0x1 = 1 then
        if lastReady = ready then
          if stable + 1 ≥ 2 then (ESP_OK, p.2)
          else wait_nvmc_ready oracle fuel p.2 ready (stable + 1)
        else wait_nvmc_ready oracle fuel p.2 ready 0
      else wait_nvmc_ready oracle fuel p.2 ready 0

/-- `set_nvmc_config`: write the mode, then read `NVMC_CONFIG` back and
verify; returns `ESP_FAIL` when the write fails, the verify read fails,
or the read-back mode differs.  Note: when the write has already
succeeded but the verify read fails, the target is left in the written
mode and the error is propagated. -/
def set_nvmc_config (oracle : Nat → Option Nat) (s : ESt) (mode : Nat) :
    Int × ESt :=
  let p := mwr oracle s NVMC_CONFIG mode
  if p.1 = false then (ESP_FAIL, p.2)
  else
    let q := mrd oracle p.2
    match q.1 with
    | none => (ESP_FAIL, q.2)
    | some cfgv => if cfgv &&& 0x3 ≠ mode then (ESP_FAIL, q.2) else (ESP_OK, q.2)

/-- The `cleanup:` label: always try to return to read-only mode, then
propagate `ret`. -/
def erase_cleanup (oracle : Nat → Option Nat) (ret : Int) (s : ESt) :
    Int × ESt :=
  let p := set_nvmc_config oracle s NVMC_CONFIG_REN
  (ret, p.2)

/-- The bounded erase-completion poll (90 ms initial delay then 10 ms
steps up to the 400 ms budget: 31 read attempts). -/
def erase_poll (oracle : Nat → Option Nat) : Nat → ESt → Int × ESt
  | 0, s => (ESP_ERR_TIMEOUT, s)
  | fuel + 1, s =>
    let p := mrd oracle s
    match p.1 with
    | none => (ESP_FAIL, p.2)
    | some ready =>
      if ready &&& 0x1 = 1 then (ESP_OK, p.2) else erase_poll oracle fuel p.2

/-- The four-offset erase verification: each sample must read as
`0xFFFFFFFF`, with one re-read allowed before declaring failure. -/
def erase_verify (oracle : Nat → Option Nat) : List Nat → ESt → Int × ESt
  | [], s => (ESP_OK, s)
  | _ :: rest, s =>
    let p := mrd oracle s
    match p.1 with
    | none => (ESP_FAIL, p.2)
    | some sample =>
      if sample ≠ 0xFFFFFFFF then
        let q := mrd oracle p.2
        match q.1 with
        | none => (ESP_FAIL, q.2)
        | some sample2 =>
          if sample2 ≠ 0xFFFFFFFF then (ESP_FAIL, q.2)
          else erase_verify oracle rest q.2
      else erase_verify oracle rest p.2

/-- `swd_flash_erase_page` after erase mode has been successfully
enabled (the code from the double-check at line 97 to the end): the
double-check of `NVMC_CONFIG`, the `NVMC_ERASEPAGE` trigger, the
completion poll, the return to read mode, the four-offset verification,
and the `cleanup:` restore on the failure paths. -/
def erase_page_body (oracle : Nat → Option Nat) (addr : Nat) (s : ESt) :
    Int × ESt :=
  let p := mrd oracle s
  match p.1 with
  | none =>
    let q := set_nvmc_config oracle p.2 NVMC_CONFIG_REN
    (ESP_FAIL, q.2)
  | some config =>
    if config &&& 0x3 ≠ NVMC_CONFIG_EEN then
      let q := set_nvmc_config oracle p.2 NVMC_CONFIG_REN
      (ESP_FAIL, q.2)
    else
      let w := mwr oracle p.2 NVMC_ERASEPAGE addr
      if w.1 = false then erase_cleanup oracle ESP_FAIL w.2
      else
        let pl := erase_poll oracle 31 w.2
        if pl.1 ≠ ESP_OK then erase_cleanup oracle pl.1 pl.2
        else
          let rc := set_nvmc_config oracle pl.2 NVMC_CONFIG_REN
          if rc.1 ≠ ESP_OK then erase_cleanup oracle rc.1 rc.2
          else
            let vf := erase_verify oracle
              [0, 4, 8, NRF52_FLASH_PAGE_SIZE - 4] rc.2
            if vf.1 ≠ ESP_OK then erase_cleanup oracle vf.1 vf.2
            else (ESP_OK, vf.2)

/-- `swd_flash_erase_page`: range check, page alignment, NVMC-ready
wait, erase-mode enable (whose failure is returned **without** any
restore attempt), then the post-enable body. -/
def swd_flash_erase_page (oracle : Nat → Option Nat) (addrIn : Nat)
    (cfg0 : Nat) : Int × ESt :=
  let s0 : ESt := ⟨0, cfg0, []⟩
  if addrIn ≥ NRF52_FLASH_SIZE ∧ addrIn ≠ 0x10001000 then
    (ESP_ERR_INVALID_ARG, s0)
  else
    let addr := addrIn - addrIn % NRF52_FLASH_PAGE_SIZE
    let w := wait_nvmc_ready oracle 500 s0 0 0
    if w.1 ≠ ESP_OK then (w.1, w.2)
    else
      let e := set_nvmc_config oracle w.2 NVMC_CONFIG_EEN
      if e.1 ≠ ESP_OK then (e.1, e.2)
      else erase_page_body oracle addr e.2

theorem mrd_wtrace (oracle : Nat → Option Nat) (s : ESt) :
    (mrd oracle s).2.wtrace = s.wtrace := rfl

theorem mwr_wtrace (oracle : Nat → Option Nat) (s : ESt) (a v : Nat) :
    (mwr oracle s a v).2.wtrace = s.wtrace ++ [(a, v)] := by
  unfold mwr
  cases oracle s.idx <;> rfl

theorem set_nvmc_config_wtrace (oracle : Nat → Option Nat) (s : ESt)
    (mode : Nat) :
    (set_nvmc_config oracle s mode).2.wtrace =
      s.wtrace ++ [(NVMC_CONFIG, mode)] := by
  unfold set_nvmc_config mwr mrd
  cases h1 : oracle s.idx
  · simp [h1]
  · simp only [h1]
    cases h2 : oracle (s.idx + 1)
    · simp [h2]
    · simp only [h2]
      split
      · rfl
      · split <;> rfl

theorem erase_cleanup_wtrace (oracle : Nat → Option Nat) (r : Int) (s : ESt) :
    (erase_cleanup oracle r s).2.wtrace =
      s.wtrace ++ [(NVMC_CONFIG, NVMC_CONFIG_REN)] := by
  unfold erase_cleanup
  rw [set_nvmc_config_wtrace]

theorem erase_poll_wtrace (oracle : Nat → Option Nat) :
    ∀ fuel s, (erase_poll oracle fuel s).2.wtrace = s.wtrace := by
  intro fuel
  induction fuel with
  | zero => intro s; rfl
  | succ f ih =>
      intro s
      rw [erase_poll]
      cases h : oracle s.idx
      · simp [mrd, h]
      · simp only [mrd, h]
        split
        · rfl
        · rw [ih]

theorem erase_verify_wtrace (oracle : Nat → Option Nat) :
    ∀ offs s, (erase_verify oracle offs s).2.wtrace = s.wtrace := by
  intro offs
  induction offs with
  | nil => intro s; rfl
  | cons o rest ih =>
      intro s
      rw [erase_verify]
      cases h1 : oracle s.idx
      · simp [mrd, h1]
      · simp only [mrd, h1]
        split
        · cases h2 : oracle (s.idx + 1)
          · simp [h2]
          · simp only [h2]
            split
            · rfl
            · rw [ih]
        · rw [ih]

/-- C5 counterexample: a run in which `wait_nvmc_ready` succeeds
(three stable ready reads), the erase-enable write to `NVMC_CONFIG`
succeeds (so the target is in erase mode), and the enable step's verify
read then fails.  `swd_flash_erase_page` returns `ESP_FAIL` with the
target left in erase mode (`cfg = NVMC_CONFIG_EEN`) and **no** restore
write `(NVMC_CONFIG, NVMC_CONFIG_REN)` anywhere in the attempted-write
trace — a failure path after erase-mode enabling began that does not
attempt to restore read-only mode. -/
theorem swd_flash_erase_page_no_restore_counterexample :
    (swd_flash_erase_page
      (fun i => if i ≤ 2 then some 1 else if i = 3 then some 0 else none)
      0 NVMC_CONFIG_REN).1 = ESP_FAIL ∧
    (swd_flash_erase_page
      (fun i => if i ≤ 2 then some 1 else if i = 3 then some 0 else none)
      0 NVMC_CONFIG_REN).2.cfg = NVMC_CONFIG_EEN ∧
    (NVMC_CONFIG, NVMC_CONFIG_REN) ∉
      (swd_flash_erase_page
        (fun i => if i ≤ 2 then some 1 else if i = 3 then some 0 else none)
        0 NVMC_CONFIG_REN).2.wtrace := by
  decide

/-- C5 (amended): once erase mode has been successfully enabled and
verified (i.e. in the code from the double-check on), every failure
path attempts to restore the NVMC controller to read-only mode — an
attempted write `(NVMC_CONFIG, NVMC_CONFIG_REN)` — before propagating
the error; only the erase-mode-enable step itself (when its
`NVMC_CONFIG` write succeeds but its verify read fails) can return an
error with erase mode left enabled and no restore attempted. -/
theorem swd_flash_erase_page_restore_after_enable (oracle : Nat → Option Nat)
    (addr : Nat) (s : ESt) :
    ∃ tl, (erase_page_body oracle addr s).2.wtrace = s.wtrace ++ tl ∧
      ((erase_page_body oracle addr s).1 ≠ ESP_OK →
        (NVMC_CONFIG, NVMC_CONFIG_REN) ∈ tl) := by
  unfold erase_page_body
  dsimp only
  split
  · exact ⟨[(NVMC_CONFIG, NVMC_CONFIG_REN)],
      by simp [set_nvmc_config_wtrace, mrd_wtrace],
      fun _ => by simp⟩
  · split
    · exact ⟨[(NVMC_CONFIG, NVMC_CONFIG_REN)],
        by simp [set_nvmc_config_wtrace, mrd_wtrace],
        fun _ => by simp⟩
    · split
      · exact ⟨[(NVMC_ERASEPAGE, addr), (NVMC_CONFIG, NVMC_CONFIG_REN)],
          by simp [erase_cleanup_wtrace, mwr_wtrace, mrd_wtrace,
            List.append_assoc],
          fun _ => by simp⟩
      · split
        · exact ⟨[(NVMC_ERASEPAGE, addr), (NVMC_CONFIG, NVMC_CONFIG_REN)],
            by simp [erase_cleanup_wtrace, erase_poll_wtrace, mwr_wtrace,
              mrd_wtrace, List.append_assoc],
            fun _ => by simp⟩
        · split
          · exact ⟨[(NVMC_ERASEPAGE, addr), (NVMC_CONFIG, NVMC_CONFIG_REN),
                (NVMC_CONFIG, NVMC_CONFIG_REN)],
              by simp [erase_cleanup_wtrace, set_nvmc_config_wtrace,
                erase_poll_wtrace, mwr_wtrace, mrd_wtrace, List.append_assoc],
              fun _ => by simp⟩
          · split
            · exact ⟨[(NVMC_ERASEPAGE, addr), (NVMC_CONFIG, NVMC_CONFIG_REN),
                  (NVMC_CONFIG, NVMC_CONFIG_REN)],
                by simp [erase_cleanup_wtrace, erase_verify_wtrace,
                  set_nvmc_config_wtrace, erase_poll_wtrace, mwr_wtrace,
                  mrd_wtrace, List.append_assoc],
                fun _ => by simp⟩
            · refine ⟨[(NVMC_ERASEPAGE, addr), (NVMC_CONFIG, NVMC_CONFIG_REN)],
                ?_, ?_⟩
              · simp [erase_verify_wtrace, set_nvmc_config_wtrace,
                  erase_poll_wtrace, mwr_wtrace, mrd_wtrace, List.append_assoc]
              · intro h
                exact absurd rfl h

/-- Witness for C5 (amended): with every transfer failing, the
post-enable body fails and its trace contains the attempted restore. -/
theorem swd_flash_erase_page_restore_witness :
    ∃ tl, (erase_page_body (fun _ => none) 0 ⟨0, NVMC_CONFIG_EEN, []⟩).2.wtrace =
        ([] : List (Nat × Nat)) ++ tl ∧
      ((erase_page_body (fun _ => none) 0 ⟨0, NVMC_CONFIG_EEN, []⟩).1 ≠ ESP_OK →
        (NVMC_CONFIG, NVMC_CONFIG_REN) ∈ tl) :=
  swd_flash_erase_page_restore_after_enable (fun _ => none) 0
    ⟨0, NVMC_CONFIG_EEN, []⟩
